import Mathlib

/-!
Verification development for the Work-Scheduler repository.

The embedding models the two-phase proctor-scheduling engine:
`src/Schedulegenrator.py` (class `ScheduleGenerator` and the `TimeSlot`
dataclass), `src/ScheduleOptimizer.py` (class `ScheduleOptimizer`), and the
surrounding pipeline in `ProctorSchedulingSystem.py`.

Modelling conventions:
- `datetime.time` values are minutes after midnight (`Nat`); Python compares
  `time` values chronologically, which is numeric comparison on minutes.
- Fractional hours, scores and configuration parameters are `ℚ`.
  `timedelta.seconds` of a difference of two times equals the difference in
  seconds taken modulo 86400 (timedelta normalisation), hence the `% 1440`
  on minutes in `duration_hours`.
- Fallible Python code (heap comparisons between dicts raising `TypeError`,
  `dict[k]` raising `KeyError`, `list.pop()` on an empty list raising
  `IndexError`) returns `Except PyErr`.
- `heapq.heappush`/`heapq.heappop` are transcribed from CPython's
  `Lib/heapq.py` (`_siftdown`, `_siftup`), with element comparison as an
  explicit fallible argument, because the program pushes tuples whose later
  components (dicts) are unorderable: comparing them raises `TypeError`
  exactly when the earlier tuple components compare equal.
- Python dicts keyed by strings that are only read at keys that were
  previously written are modelled as total functions (`String → ℚ`) or as
  functions into `Option` where a `KeyError` is reachable.
-/

set_option maxRecDepth 40000

namespace WorkScheduler

/-- Python runtime errors that the modelled code can raise. -/
inductive PyErr : Type where
  | typeError : PyErr
  | indexError : PyErr
  | keyError : String → PyErr
deriving DecidableEq

/-- Result of running a piece of Python code: a value or a raised error. -/
abbrev PyRes (α : Type) := Except PyErr α

/-- The `TimeSlot` dataclass of `Schedulegenrator.py` (also used for the
plain `start`/`end` time dicts flowing through the pipeline, which have
exactly these two fields).  `start`/`stop` are minutes after midnight;
the Python field `end` is a reserved word in Lean, hence `stop`. -/
structure TimeSlot : Type where
  start : Nat
  stop : Nat
deriving DecidableEq

/-- `TimeSlot.duration_hours`: Python computes
`(datetime.combine(min, end) - datetime.combine(min, start)).seconds / 3600`.
`timedelta.seconds` is the difference taken modulo one day (never negative),
so in minutes this is `(stop - start) mod 1440`, converted to hours. -/
def TimeSlot.duration_hours (t : TimeSlot) : ℚ :=
  ((((t.stop : ℤ) - (t.start : ℤ)) % 1440 : ℤ) : ℚ) / 60

/-- `TimeSlot.overlaps_with`: `self.start <= other.end and self.end >= other.start`. -/
def TimeSlot.overlaps_with (t other : TimeSlot) : Prop :=
  t.start ≤ other.stop ∧ other.start ≤ t.stop

instance (t other : TimeSlot) : Decidable (t.overlaps_with other) := by
  unfold TimeSlot.overlaps_with; infer_instance

/-- `TimeSlot.get_overlap`: `None` when the slots do not overlap, otherwise
the inner interval `{max(starts), min(ends)}`. -/
def TimeSlot.get_overlap (t other : TimeSlot) : Option TimeSlot :=
  if t.overlaps_with other then
    some ⟨max t.start other.start, min t.stop other.stop⟩
  else
    none

theorem duration_hours_nonneg (t : TimeSlot) : 0 ≤ t.duration_hours := by
  unfold TimeSlot.duration_hours
  have h : (0 : ℤ) ≤ ((t.stop : ℤ) - (t.start : ℤ)) % 1440 :=
    Int.emod_nonneg _ (by norm_num)
  positivity

/-! ### Python's built-in `sorted`

Both phases call `sorted(..., key=...)`.  Python's sort is stable and
ascending; any stable ascending sort computes the same list, so we model it
as an insertion sort: an element is inserted in front of the first already
placed element that is strictly greater, i.e. it lands after every earlier
element whose key is less than or equal to its own. -/

/-- Insert `x` into `l` before the first `y` with `x < y` (argument `lt`). -/
def pyInsert (lt : α → α → Bool) (x : α) : List α → List α
  | [] => [x]
  | y :: l => if lt x y then x :: y :: l else y :: pyInsert lt x l

/-- Python `sorted(l)` with strict comparison `lt`: stable ascending sort. -/
def pySorted (lt : α → α → Bool) (l : List α) : List α :=
  l.foldl (fun acc x => pyInsert lt x acc) []

theorem mem_pyInsert {lt : α → α → Bool} {x a : α} :
    ∀ {l : List α}, a ∈ pyInsert lt x l → a = x ∨ a ∈ l := by
  intro l
  induction l with
  | nil => intro h; simp [pyInsert] at h; exact Or.inl h
  | cons y t ih =>
    intro h
    unfold pyInsert at h
    by_cases hc : lt x y
    · simp [hc] at h
      rcases h with h | h | h
      · exact Or.inl h
      · exact Or.inr (by simp [h])
      · exact Or.inr (by simp [h])
    · simp [hc] at h
      rcases h with h | h
      · exact Or.inr (by simp [h])
      · rcases ih h with h' | h'
        · exact Or.inl h'
        · exact Or.inr (by simp [h'])

theorem mem_pySorted_aux {lt : α → α → Bool} {a : α} :
    ∀ (l acc : List α), a ∈ l.foldl (fun acc x => pyInsert lt x acc) acc →
      a ∈ l ∨ a ∈ acc := by
  intro l
  induction l with
  | nil => intro acc h; exact Or.inr h
  | cons x t ih =>
    intro acc h
    simp only [List.foldl_cons] at h
    rcases ih _ h with h' | h'
    · exact Or.inl (by simp [h'])
    · rcases mem_pyInsert h' with h'' | h''
      · exact Or.inl (by simp [h''])
      · exact Or.inr h''

theorem mem_pySorted {lt : α → α → Bool} {a : α} {l : List α}
    (h : a ∈ pySorted lt l) : a ∈ l := by
  rcases mem_pySorted_aux l [] h with h' | h'
  · exact h'
  · cases h'

/-! ### `heapq` (CPython `Lib/heapq.py`)

The program uses `heapq.heappush` and `heapq.heappop` on plain Python lists.
Element comparison `<` is passed explicitly as a fallible function because the
pushed tuples contain dicts, whose comparison raises `TypeError`. -/

/-- Loop of CPython's `heapq._siftdown(heap, startpos, pos)`; `newitem` is
the saved `heap[pos]` of the original call. -/
def siftdownLoop (lt : α → α → PyRes Bool) (newitem : α) (heap : List α)
    (startpos pos : Nat) : PyRes (List α) :=
  if startpos < pos then
    match lt newitem (heap.getD ((pos - 1) / 2) newitem) with
    | .error e => .error e
    | .ok true =>
        siftdownLoop lt newitem (heap.set pos (heap.getD ((pos - 1) / 2) newitem))
          startpos ((pos - 1) / 2)
    | .ok false => .ok (heap.set pos newitem)
  else
    .ok (heap.set pos newitem)
termination_by pos
decreasing_by omega

/-- CPython's `heapq.heappush`: append, then sift down from the last cell. -/
def heappush (lt : α → α → PyRes Bool) (heap : List α) (item : α) :
    PyRes (List α) :=
  siftdownLoop lt item (heap ++ [item]) 0 heap.length

/-- Loop of CPython's `heapq._siftup(heap, pos)`: walk down moving the
smaller child up, returning the final position of the hole.  Comparison
`heap[childpos] < heap[rightpos]` decides which child wins. -/
def siftupLoop (lt : α → α → PyRes Bool) (heap : List α) (endpos pos : Nat)
    (dflt : α) : PyRes (List α × Nat) :=
  if 2 * pos + 1 < endpos then
    if 2 * pos + 2 < endpos then
      match lt (heap.getD (2 * pos + 1) dflt) (heap.getD (2 * pos + 2) dflt) with
      | .error e => .error e
      | .ok true =>
          siftupLoop lt (heap.set pos (heap.getD (2 * pos + 1) dflt)) endpos
            (2 * pos + 1) dflt
      | .ok false =>
          siftupLoop lt (heap.set pos (heap.getD (2 * pos + 2) dflt)) endpos
            (2 * pos + 2) dflt
    else
      siftupLoop lt (heap.set pos (heap.getD (2 * pos + 1) dflt)) endpos
        (2 * pos + 1) dflt
  else
    .ok (heap, pos)
termination_by endpos - pos
decreasing_by all_goals omega

/-- CPython's `heapq._siftup(heap, pos)`: save `newitem = heap[pos]`, run the
walk-down loop, place `newitem` in the hole and sift it down towards `pos`. -/
def siftup (lt : α → α → PyRes Bool) (heap : List α) (pos : Nat) (dflt : α) :
    PyRes (List α) :=
  match siftupLoop lt heap heap.length pos dflt with
  | .error e => .error e
  | .ok (h1, finalpos) => siftdownLoop lt (heap.getD pos dflt) h1 pos finalpos

/-- CPython's `heapq.heappop`: pop the last element; if the heap is still
non-empty, the root is returned and the popped element is sifted from the
root.  `list.pop()` on an empty list raises `IndexError`. -/
def heappop (lt : α → α → PyRes Bool) (heap : List α) : PyRes (α × List α) :=
  match heap.getLast? with
  | none => .error .indexError
  | some lastelt =>
    if (heap.dropLast).isEmpty then
      .ok (lastelt, heap.dropLast)
    else
      match siftup lt ((heap.dropLast).set 0 lastelt) 0 lastelt with
      | .error e => .error e
      | .ok h2 => .ok ((heap.dropLast).getD 0 lastelt, h2)

/-! Length and membership facts about the heap operations. -/

theorem siftdownLoop_length {lt : α → α → PyRes Bool} {x : α} :
    ∀ (pos : Nat) (heap : List α) (s : Nat) (h' : List α),
      siftdownLoop lt x heap s pos = .ok h' → h'.length = heap.length := by
  intro pos
  induction pos using Nat.strong_induction_on with
  | _ pos ih =>
    intro heap s h' hok
    rw [siftdownLoop] at hok
    by_cases hs : s < pos
    · simp only [if_pos hs] at hok
      cases hlt : lt x (heap.getD ((pos - 1) / 2) x) with
      | error e => rw [hlt] at hok; cases hok
      | ok b =>
        rw [hlt] at hok
        cases b with
        | true =>
          have := ih ((pos - 1) / 2) (by omega) _ _ _ hok
          simpa using this
        | false =>
          cases hok; simp
    · simp only [if_neg hs] at hok
      cases hok; simp

theorem mem_siftdownLoop {lt : α → α → PyRes Bool} {x a : α} :
    ∀ (pos : Nat) (heap : List α) (s : Nat) (h' : List α),
      siftdownLoop lt x heap s pos = .ok h' → a ∈ h' → a = x ∨ a ∈ heap := by
  intro pos
  induction pos using Nat.strong_induction_on with
  | _ pos ih =>
    intro heap s h' hok ha
    rw [siftdownLoop] at hok
    by_cases hs : s < pos
    · simp only [if_pos hs] at hok
      cases hlt : lt x (heap.getD ((pos - 1) / 2) x) with
      | error e => rw [hlt] at hok; cases hok
      | ok b =>
        rw [hlt] at hok
        cases b with
        | true =>
          rcases ih ((pos - 1) / 2) (by omega) _ _ _ hok ha with h | h
          · exact Or.inl h
          · rcases List.mem_or_eq_of_mem_set h with h' | h'
            · exact Or.inr h'
            · by_cases hp : (pos - 1) / 2 < heap.length
              · rw [List.getD_eq_getElem _ _ hp] at h'
                exact Or.inr (h' ▸ List.getElem_mem hp)
              · rw [List.getD_eq_default _ _ (by omega)] at h'
                exact Or.inl h'
        | false =>
          cases hok
          rcases List.mem_or_eq_of_mem_set ha with h | h
          · exact Or.inr h
          · exact Or.inl h
    · simp only [if_neg hs] at hok
      cases hok
      rcases List.mem_or_eq_of_mem_set ha with h | h
      · exact Or.inr h
      · exact Or.inl h

theorem heappush_length {lt : α → α → PyRes Bool} {heap : List α} {x : α}
    {h' : List α} (hok : heappush lt heap x = .ok h') :
    h'.length = heap.length + 1 := by
  have := siftdownLoop_length _ _ _ _ hok
  simpa using this

theorem mem_heappush {lt : α → α → PyRes Bool} {heap : List α} {x a : α}
    {h' : List α} (hok : heappush lt heap x = .ok h') (ha : a ∈ h') :
    a = x ∨ a ∈ heap := by
  rcases mem_siftdownLoop _ _ _ _ hok ha with h | h
  · exact Or.inl h
  · rcases List.mem_append.mp h with h' | h'
    · exact Or.inr h'
    · exact Or.inl (by simpa using h')

theorem siftupLoop_length {lt : α → α → PyRes Bool} {dflt : α} :
    ∀ (n pos : Nat) (heap : List α) (endpos : Nat) (h' : List α × Nat),
      endpos - pos ≤ n →
      siftupLoop lt heap endpos pos dflt = .ok h' →
      h'.1.length = heap.length := by
  intro n
  induction n with
  | zero =>
    intro pos heap endpos h' hn hok
    rw [siftupLoop] at hok
    have hc : ¬ 2 * pos + 1 < endpos := by omega
    simp only [if_neg hc] at hok
    cases hok; rfl
  | succ n ih =>
    intro pos heap endpos h' hn hok
    rw [siftupLoop] at hok
    by_cases h1 : 2 * pos + 1 < endpos
    · simp only [if_pos h1] at hok
      by_cases h2 : 2 * pos + 2 < endpos
      · simp only [if_pos h2] at hok
        cases hlt : lt (heap.getD (2 * pos + 1) dflt) (heap.getD (2 * pos + 2) dflt) with
        | error e => rw [hlt] at hok; cases hok
        | ok b =>
          rw [hlt] at hok
          cases b with
          | true =>
            have := ih _ _ _ _ (by omega) hok
            simpa using this
          | false =>
            have := ih _ _ _ _ (by omega) hok
            simpa using this
      · simp only [if_neg h2] at hok
        have := ih _ _ _ _ (by omega) hok
        simpa using this
    · simp only [if_neg h1] at hok
      cases hok; rfl

theorem mem_siftupLoop {lt : α → α → PyRes Bool} {dflt a : α} :
    ∀ (n pos : Nat) (heap : List α) (endpos : Nat) (h' : List α × Nat),
      endpos - pos ≤ n →
      siftupLoop lt heap endpos pos dflt = .ok h' →
      a ∈ h'.1 → a ∈ heap ∨ a = dflt := by
  intro n
  induction n with
  | zero =>
    intro pos heap endpos h' hn hok ha
    rw [siftupLoop] at hok
    have hc : ¬ 2 * pos + 1 < endpos := by omega
    simp only [if_neg hc] at hok
    cases hok; exact Or.inl ha
  | succ n ih =>
    intro pos heap endpos h' hn hok ha
    rw [siftupLoop] at hok
    by_cases h1 : 2 * pos + 1 < endpos
    · simp only [if_pos h1] at hok
      have step : ∀ (c : Nat), a ∈ heap.set pos (heap.getD c dflt) → a ∈ heap ∨ a = dflt := by
        intro c hmem
        rcases List.mem_or_eq_of_mem_set hmem with h | h
        · exact Or.inl h
        · by_cases hp : c < heap.length
          · rw [List.getD_eq_getElem _ _ hp] at h
            exact Or.inl (h ▸ List.getElem_mem hp)
          · rw [List.getD_eq_default _ _ (by omega)] at h
            exact Or.inr h
      by_cases h2 : 2 * pos + 2 < endpos
      · simp only [if_pos h2] at hok
        cases hlt : lt (heap.getD (2 * pos + 1) dflt) (heap.getD (2 * pos + 2) dflt) with
        | error e => rw [hlt] at hok; cases hok
        | ok b =>
          rw [hlt] at hok
          cases b with
          | true =>
            rcases ih _ _ _ _ (by omega) hok ha with h | h
            · exact step _ h
            · exact Or.inr h
          | false =>
            rcases ih _ _ _ _ (by omega) hok ha with h | h
            · exact step _ h
            · exact Or.inr h
      · simp only [if_neg h2] at hok
        rcases ih _ _ _ _ (by omega) hok ha with h | h
        · exact step _ h
        · exact Or.inr h
    · simp only [if_neg h1] at hok
      cases hok; exact Or.inl ha

theorem siftup_length {lt : α → α → PyRes Bool} {heap : List α} {pos : Nat}
    {dflt : α} {h' : List α} (hok : siftup lt heap pos dflt = .ok h') :
    h'.length = heap.length := by
  unfold siftup at hok
  cases hup : siftupLoop lt heap heap.length pos dflt with
  | error e => rw [hup] at hok; cases hok
  | ok p =>
    rw [hup] at hok
    have h1 := siftupLoop_length (heap.length - pos)
      pos heap heap.length p (by omega) hup
    have h2 := siftdownLoop_length _ _ _ _ hok
    omega

theorem mem_siftup {lt : α → α → PyRes Bool} {heap : List α} {pos : Nat}
    {dflt a : α} {h' : List α} (hok : siftup lt heap pos dflt = .ok h')
    (ha : a ∈ h') : a ∈ heap ∨ a = dflt := by
  unfold siftup at hok
  cases hup : siftupLoop lt heap heap.length pos dflt with
  | error e => rw [hup] at hok; cases hok
  | ok p =>
    rw [hup] at hok
    rcases mem_siftdownLoop _ _ _ _ hok ha with h | h
    · by_cases hp : pos < heap.length
      · rw [List.getD_eq_getElem _ _ hp] at h
        exact Or.inl (h ▸ List.getElem_mem hp)
      · rw [List.getD_eq_default _ _ (by omega)] at h
        exact Or.inr h
    · exact mem_siftupLoop (heap.length - pos) pos heap heap.length p
        (by omega) hup h

theorem heappop_length {lt : α → α → PyRes Bool} {heap : List α}
    {c : α} {h' : List α} (hok : heappop lt heap = .ok (c, h')) :
    h'.length + 1 = heap.length := by
  unfold heappop at hok
  cases hlast : heap.getLast? with
  | none => rw [hlast] at hok; cases hok
  | some lastelt =>
    rw [hlast] at hok
    have hne : heap ≠ [] := by
      intro h; subst h; simp at hlast
    have hlen : heap.dropLast.length + 1 = heap.length := by
      have := List.length_dropLast heap
      have : 0 < heap.length := List.length_pos.mpr hne
      simp [List.length_dropLast]; omega
    by_cases hemp : (heap.dropLast).isEmpty
    · simp only [if_pos hemp] at hok
      cases hok
      omega
    · simp only [if_neg hemp] at hok
      cases hsift : siftup lt ((heap.dropLast).set 0 lastelt) 0 lastelt with
      | error e => rw [hsift] at hok; cases hok
      | ok h2 =>
        rw [hsift] at hok
        cases hok
        have := siftup_length hsift
        simp at this
        omega

theorem mem_of_heappop {lt : α → α → PyRes Bool} {heap : List α}
    {c : α} {h' : List α} (hok : heappop lt heap = .ok (c, h')) :
    c ∈ heap ∧ ∀ a ∈ h', a ∈ heap := by
  unfold heappop at hok
  cases hlast : heap.getLast? with
  | none => rw [hlast] at hok; cases hok
  | some lastelt =>
    rw [hlast] at hok
    have hlmem : lastelt ∈ heap := by
      obtain ⟨h, rfl⟩ := List.mem_getLast?_eq_getLast
        (show lastelt ∈ heap.getLast? by simp [hlast])
      exact List.getLast_mem h
    have hsub : ∀ b ∈ heap.dropLast, b ∈ heap := fun b hb =>
      List.dropLast_subset heap hb
    by_cases hemp : (heap.dropLast).isEmpty
    · simp only [if_pos hemp] at hok
      cases hok
      exact ⟨hlmem, fun a ha => hsub a ha⟩
    · simp only [if_neg hemp] at hok
      cases hsift : siftup lt ((heap.dropLast).set 0 lastelt) 0 lastelt with
      | error e => rw [hsift] at hok; cases hok
      | ok h2 =>
        rw [hsift] at hok
        cases hok
        constructor
        · have hlen : 0 < heap.dropLast.length := by
            cases hl : heap.dropLast with
            | nil => rw [hl] at hemp; simp at hemp
            | cons x t => simp [hl]
          rw [List.getD_eq_getElem _ _ hlen]
          exact hsub _ (List.getElem_mem hlen)
        · intro a ha
          rcases mem_siftup hsift ha with h | h
          · rcases List.mem_or_eq_of_mem_set h with h' | h'
            · exact hsub _ h'
            · exact h' ▸ hlmem
          · exact h ▸ hlmem

/-! Step equations used to evaluate the heap operations on concrete input
(the automatically generated unconditional equations would make `simp`
unfold the recursion without end). -/

theorem siftdownLoop_go {lt : α → α → PyRes Bool} {x : α} {heap : List α}
    {s p : Nat} (h : s < p) :
    siftdownLoop lt x heap s p =
      match lt x (heap.getD ((p - 1) / 2) x) with
      | .error e => .error e
      | .ok true =>
          siftdownLoop lt x (heap.set p (heap.getD ((p - 1) / 2) x)) s ((p - 1) / 2)
      | .ok false => .ok (heap.set p x) := by
  rw [siftdownLoop]; simp [h]

theorem siftdownLoop_stop {lt : α → α → PyRes Bool} {x : α} {heap : List α}
    {s p : Nat} (h : ¬ s < p) :
    siftdownLoop lt x heap s p = .ok (heap.set p x) := by
  rw [siftdownLoop]; simp [h]

theorem siftupLoop_two {lt : α → α → PyRes Bool} {heap : List α}
    {ep p : Nat} {dflt : α} (h1 : 2 * p + 1 < ep) (h2 : 2 * p + 2 < ep) :
    siftupLoop lt heap ep p dflt =
      match lt (heap.getD (2 * p + 1) dflt) (heap.getD (2 * p + 2) dflt) with
      | .error e => .error e
      | .ok true =>
          siftupLoop lt (heap.set p (heap.getD (2 * p + 1) dflt)) ep (2 * p + 1) dflt
      | .ok false =>
          siftupLoop lt (heap.set p (heap.getD (2 * p + 2) dflt)) ep (2 * p + 2) dflt := by
  rw [siftupLoop]; simp [h1, h2]

theorem siftupLoop_one {lt : α → α → PyRes Bool} {heap : List α}
    {ep p : Nat} {dflt : α} (h1 : 2 * p + 1 < ep) (h2 : ¬ 2 * p + 2 < ep) :
    siftupLoop lt heap ep p dflt =
      siftupLoop lt (heap.set p (heap.getD (2 * p + 1) dflt)) ep (2 * p + 1) dflt := by
  rw [siftupLoop]; simp [h1, h2]

theorem siftupLoop_leaf {lt : α → α → PyRes Bool} {heap : List α}
    {ep p : Nat} {dflt : α} (h : ¬ 2 * p + 1 < ep) :
    siftupLoop lt heap ep p dflt = .ok (heap, p) := by
  rw [siftupLoop]; simp [h]

/-! ### Data flowing between the two phases -/

/-- A proctor record as consumed by `ScheduleGenerator` (keys `Name`,
`star`, `availability`; `availability` maps a weekday to the list of
availability slots).  The pipeline layer that instead produces lowercase
keys is modelled separately below for the key-mismatch claim. -/
structure Proctor : Type where
  Name : String
  star : Bool
  availability : List (String × List TimeSlot)
deriving DecidableEq

/-- The per-proctor assignment dict built by `_select_best_proctors`:
`{'Name': ..., 'star': ..., 'assigned_time': {'start': ..., 'end': ...}}`. -/
structure Assignment : Type where
  Name : String
  star : Bool
  assigned_time : TimeSlot
deriving DecidableEq

/-- One emitted session coverage: `{'lab_time': ..., 'proctors': [...]}`. -/
structure Entry : Type where
  lab_time : TimeSlot
  proctors : List Assignment
deriving DecidableEq

/-- A schedule: weekday → list of session coverages, in dict insertion
order. -/
abbrev Schedule := List (String × List Entry)

/-- First-match association lookup, modelling `d[k]` / `k in d` for the
string-keyed dicts of the program (which have unique keys). -/
def assocLookup (k : String) : List (String × β) → Option β
  | [] => none
  | (a, b) :: l => if k = a then some b else assocLookup k l

/-! ### `ScheduleGenerator` (src/Schedulegenrator.py) -/

/-- Configuration of a `ScheduleGenerator` instance (`__init__` arguments;
defaults `2.5`, `4`, `15`). -/
structure ScheduleGenerator : Type where
  min_shift_duration : ℚ
  max_shift_duration : ℚ
  max_weekly_hours : ℚ

/-- A `ScheduleGenerator()` built with the default arguments. -/
def ScheduleGenerator.default : ScheduleGenerator := ⟨5/2, 4, 15⟩

namespace ScheduleGenerator

/-- A candidate tuple `(-priority_score, proctor, overlap)` as pushed onto
the generator's heap. -/
structure Cand : Type where
  neg_score : ℚ
  proctor : Proctor
  overlap : TimeSlot
deriving DecidableEq

/-- The assignment dict `_select_best_proctors` builds from a popped
candidate: `{'Name': ..., 'star': ..., 'assigned_time': ...}`. -/
def Cand.assignment (c : Cand) : Assignment :=
  ⟨c.proctor.Name, c.proctor.star, c.overlap⟩

/-- Python `<` on two candidate tuples: tuple comparison locates the first
component where the tuples differ and compares it there.  Floats compare
fine; a differing `proctor` dict or a differing `TimeSlot` dataclass (no
`__lt__`) raises `TypeError`; fully equal tuples yield `False`. -/
def candLt (a b : Cand) : PyRes Bool :=
  if a.neg_score ≠ b.neg_score then .ok (decide (a.neg_score < b.neg_score))
  else if a.proctor ≠ b.proctor then .error .typeError
  else if a.overlap ≠ b.overlap then .error .typeError
  else .ok false

/-- `_initialize_proctor_hours`: the dict `{p['Name']: 0 for p in ...}`.
Every later read of `self.proctor_weekly_hours` in the generator is at the
`Name` of a listed proctor, so the dict is modelled as the constantly-zero
total function. -/
def initialize_proctor_hours (_proctor_availabilities : List Proctor) :
    String → ℚ :=
  fun _ => 0

/-- `_calculate_priority_score` (`duration` is passed but unused by the
formula, as in the source). -/
def calculate_priority_score (self : ScheduleGenerator) (hours : String → ℚ)
    (proctor : Proctor) (_duration : ℚ) : ℚ :=
  (if proctor.star then 1000 else 0) +
    (self.max_weekly_hours - hours proctor.Name) +
    ((proctor.availability.map (fun kv => (kv.2.length : ℚ))).sum) * (1 / 10)

/-- `_is_valid_assignment`. -/
def is_valid_assignment (self : ScheduleGenerator) (hours : String → ℚ)
    (proctor_name : String) (duration : ℚ) : Bool :=
  decide (self.min_shift_duration ≤ duration) &&
    decide (duration ≤ self.max_shift_duration) &&
    decide (hours proctor_name + duration ≤ self.max_weekly_hours)

/-- Inner loop of `_assign_proctors_to_session` over one proctor's
availability slots for the day: compute the overlap and push a candidate
when the assignment is valid. -/
def push_slot_candidates (self : ScheduleGenerator) (hours : String → ℚ)
    (proctor : Proctor) (lab_slot : TimeSlot) :
    List TimeSlot → List Cand → PyRes (List Cand)
  | [], heap => .ok heap
  | s :: rest, heap =>
    match lab_slot.get_overlap s with
    | none => push_slot_candidates self hours proctor lab_slot rest heap
    | some overlap =>
      if is_valid_assignment self hours proctor.Name overlap.duration_hours then
        match heappush candLt heap
          ⟨-(calculate_priority_score self hours proctor overlap.duration_hours),
            proctor, overlap⟩ with
        | .error e => .error e
        | .ok heap' => push_slot_candidates self hours proctor lab_slot rest heap'
      else
        push_slot_candidates self hours proctor lab_slot rest heap

/-- Outer loop of `_assign_proctors_to_session` over the proctors: skip a
proctor when `day` is not among its availability keys. -/
def candidate_loop (self : ScheduleGenerator) (hours : String → ℚ)
    (lab_slot : TimeSlot) (day : String) :
    List Proctor → List Cand → PyRes (List Cand)
  | [], heap => .ok heap
  | p :: rest, heap =>
    match assocLookup day p.availability with
    | none => candidate_loop self hours lab_slot day rest heap
    | some slots =>
      match push_slot_candidates self hours p lab_slot slots heap with
      | .error e => .error e
      | .ok heap' => candidate_loop self hours lab_slot day rest heap'

/-- `_select_best_proctors`: pop up to `target_proctors = 2` candidates,
adding each accepted overlap's duration to the proctor's weekly hours
(`self.proctor_weekly_hours` is threaded explicitly). -/
def select_best_proctors (heap : List Cand) (hours : String → ℚ)
    (selected : List Assignment) : PyRes (List Assignment × (String → ℚ)) :=
  if heap.isEmpty ∨ 2 ≤ selected.length then .ok (selected, hours)
  else
    match hpop : heappop candLt heap with
    | .error e => .error e
    | .ok (c, heap') =>
      select_best_proctors heap'
        (fun n => if n = c.proctor.Name then hours n + c.overlap.duration_hours
                  else hours n)
        (selected ++ [⟨c.proctor.Name, c.proctor.star, c.overlap⟩])
termination_by heap.length
decreasing_by have := heappop_length hpop; omega

theorem select_best_proctors_stop {heap : List Cand} {hours : String → ℚ}
    {selected : List Assignment} (h : heap.isEmpty ∨ 2 ≤ selected.length) :
    select_best_proctors heap hours selected = .ok (selected, hours) := by
  rw [select_best_proctors, if_pos h]

theorem select_best_proctors_go {heap : List Cand} {hours : String → ℚ}
    {selected : List Assignment}
    (h : ¬ (heap.isEmpty ∨ 2 ≤ selected.length)) :
    select_best_proctors heap hours selected =
      match heappop candLt heap with
      | .error e => .error e
      | .ok p =>
          select_best_proctors p.2
            (fun n => if n = p.1.proctor.Name then
                        hours n + p.1.overlap.duration_hours
                      else hours n)
            (selected ++ [p.1.assignment]) := by
  rw [select_best_proctors, if_neg h]
  rcases hp : heappop candLt heap with e | ⟨c, heap'⟩ <;> simp [hp, Cand.assignment]

/-- `_assign_proctors_to_session`. -/
def assign_proctors_to_session (self : ScheduleGenerator) (hours : String → ℚ)
    (lab_slot : TimeSlot) (proctor_availabilities : List Proctor)
    (day : String) : PyRes (List Assignment × (String → ℚ)) :=
  match candidate_loop self hours lab_slot day proctor_availabilities [] with
  | .error e => .error e
  | .ok heap => select_best_proctors heap hours []

/-- Session loop of `_generate_day_schedule` (sessions already sorted):
skip sessions shorter than the minimum shift duration, and append a
coverage entry only when at least one proctor was assigned. -/
def day_schedule_loop (self : ScheduleGenerator) (proctors : List Proctor)
    (day : String) :
    List TimeSlot → (String → ℚ) → List Entry →
      PyRes (List Entry × (String → ℚ))
  | [], hours, acc => .ok (acc, hours)
  | s :: rest, hours, acc =>
    if s.duration_hours < self.min_shift_duration then
      day_schedule_loop self proctors day rest hours acc
    else
      match assign_proctors_to_session self hours s proctors day with
      | .error e => .error e
      | .ok (assigned, hours') =>
        if assigned.isEmpty then
          day_schedule_loop self proctors day rest hours' acc
        else
          day_schedule_loop self proctors day rest hours' (acc ++ [⟨s, assigned⟩])

/-- `_generate_day_schedule`: sort the day's sessions by start time
(Python's stable `sorted` with key `x['start']`), then process them. -/
def generate_day_schedule (self : ScheduleGenerator) (day : String)
    (lab_sessions : List TimeSlot) (proctors : List Proctor)
    (hours : String → ℚ) : PyRes (List Entry × (String → ℚ)) :=
  day_schedule_loop self proctors day
    (pySorted (fun a b => decide (a.start < b.start)) lab_sessions) hours []

/-- Day loop of `generate_schedule` over `lab_times` in dict insertion
order; every day key appears in the output (empty coverage list when no
session got covered). -/
def generate_days (self : ScheduleGenerator) (proctors : List Proctor) :
    List (String × List TimeSlot) → (String → ℚ) →
      PyRes (Schedule × (String → ℚ))
  | [], hours => .ok ([], hours)
  | (day, sessions) :: rest, hours =>
    match generate_day_schedule self day sessions proctors hours with
    | .error e => .error e
    | .ok (ds, hours') =>
      match generate_days self proctors rest hours' with
      | .error e => .error e
      | .ok (sched, hours'') => .ok ((day, ds) :: sched, hours'')

/-- `ScheduleGenerator.generate_schedule`.  Returns the schedule together
with the final `self.proctor_weekly_hours` attribute. -/
def generate_schedule (self : ScheduleGenerator)
    (proctor_availabilities : List Proctor)
    (lab_times : List (String × List TimeSlot)) :
    PyRes (Schedule × (String → ℚ)) :=
  generate_days self proctor_availabilities lab_times
    (initialize_proctor_hours proctor_availabilities)

/-- The value `generate_schedule` actually returns to its caller (the
schedule alone). -/
def generate_schedule_out (self : ScheduleGenerator)
    (proctor_availabilities : List Proctor)
    (lab_times : List (String × List TimeSlot)) : PyRes Schedule :=
  Except.map Prod.fst (generate_schedule self proctor_availabilities lab_times)

end ScheduleGenerator

/-! ### `ScheduleOptimizer` (src/ScheduleOptimizer.py)

The optimizer class has no instance state; its methods are modelled as
plain functions, with the local `proctor_stats` dict threaded explicitly. -/

namespace ScheduleOptimizer

/-- One value of the `proctor_stats` dict:
`{'hours': ..., 'star': ..., 'availability': ...}`. -/
structure OptStats : Type where
  hours : ℚ
  star : Bool
  availability : Nat
deriving DecidableEq

/-- One step of `_initialize_proctor_stats` for one assignment dict: create
the entry (hours 0, the star flag of this occurrence, availability 0) if the
name is new, then increment its availability count. -/
def statsAdd (stats : String → Option OptStats) (proctor : Assignment) :
    String → Option OptStats :=
  match stats proctor.Name with
  | none => fun n => if n = proctor.Name then some ⟨0, proctor.star, 1⟩ else stats n
  | some st =>
      fun n => if n = proctor.Name then some ⟨st.hours, st.star, st.availability + 1⟩
               else stats n

/-- `_initialize_proctor_stats`: scan every assignment of every session of
every day, in iteration order. -/
def initialize_proctor_stats (schedule : Schedule) : String → Option OptStats :=
  (schedule.flatMap (fun d => d.2.flatMap (fun e => e.proctors))).foldl statsAdd
    (fun _ => none)

/-- Strict comparison of the Python sort keys `(day, lab_time.start)` used
by `_sort_sessions` (string comparison on the day, then time comparison). -/
def sessionKeyLt (a b : String × Entry × List Assignment) : Bool :=
  if a.1 = b.1 then decide (a.2.1.lab_time.start < b.2.1.lab_time.start)
  else decide (a.1 < b.1)

/-- `_sort_sessions`: flatten the schedule to `(day, session, proctors)`
triples and sort them by `(day, start)` (stable). -/
def sort_sessions (schedule : Schedule) : List (String × Entry × List Assignment) :=
  pySorted sessionKeyLt
    (schedule.flatMap (fun d => d.2.map (fun e => (d.1, e, e.proctors))))

/-- `_calculate_priority_score`: note the literal `15` in the hours factor
(`15 - stats['hours']` in the source), independent of the
`max_hours_per_week` argument of `optimize_schedule`; the session duration
argument is unused. -/
def calculate_priority_score (stats : OptStats) (_session_duration : ℚ) : ℚ :=
  (if stats.star then 1000 else 0) + (stats.availability : ℚ) * 10 +
    (15 - stats.hours)

/-- A tuple `(-priority_score, Name, proctor)` as pushed onto the
optimizer's heap. -/
structure OCand : Type where
  neg_score : ℚ
  name : String
  proctor : Assignment
deriving DecidableEq

/-- Python `<` on two optimizer candidate tuples: floats compare, then the
name strings compare (lexicographically), and only two differing proctor
dicts raise `TypeError`. -/
def ocandLt (a b : OCand) : PyRes Bool :=
  if a.neg_score ≠ b.neg_score then .ok (decide (a.neg_score < b.neg_score))
  else if a.name ≠ b.name then .ok (decide (a.name < b.name))
  else if a.proctor ≠ b.proctor then .error .typeError
  else .ok false

/-- Candidate loop of `_find_best_proctors`: look each original proctor up
in `proctor_stats` (a missing name raises `KeyError`), skip it when the
session would push it over `max_hours_per_week`, otherwise push it. -/
def build_queue (stats : String → Option OptStats) (m dur : ℚ) :
    List Assignment → List OCand → PyRes (List OCand)
  | [], queue => .ok queue
  | p :: rest, queue =>
    match stats p.Name with
    | none => .error (.keyError p.Name)
    | some st =>
      if m < st.hours + dur then build_queue stats m dur rest queue
      else
        match heappush ocandLt queue
          ⟨-(calculate_priority_score st dur), p.Name, p⟩ with
        | .error e => .error e
        | .ok q' => build_queue stats m dur rest q'

/-- Selection loop of `_find_best_proctors`: pop up to 2 proctors. -/
def oselect (queue : List OCand) (selected : List Assignment) :
    PyRes (List Assignment) :=
  if queue.isEmpty ∨ 2 ≤ selected.length then .ok selected
  else
    match hp : heappop ocandLt queue with
    | .error e => .error e
    | .ok (c, q') => oselect q' (selected ++ [c.proctor])
termination_by queue.length
decreasing_by have := heappop_length hp; omega

theorem oselect_stop {queue : List OCand} {selected : List Assignment}
    (h : queue.isEmpty ∨ 2 ≤ selected.length) :
    oselect queue selected = .ok selected := by
  rw [oselect, if_pos h]

theorem oselect_go {queue : List OCand} {selected : List Assignment}
    (h : ¬ (queue.isEmpty ∨ 2 ≤ selected.length)) :
    oselect queue selected =
      match heappop ocandLt queue with
      | .error e => .error e
      | .ok p => oselect p.2 (selected ++ [p.1.proctor]) := by
  rw [oselect, if_neg h]
  rcases hp : heappop ocandLt queue with e | ⟨c, q'⟩ <;> simp [hp]

/-- `_find_best_proctors`: recompute the session duration from `lab_time`;
return no proctors when it is out of `[min_shift, max_shift]`; otherwise
rank the session's original proctors and select up to 2. -/
def find_best_proctors (session : Entry) (original_proctors : List Assignment)
    (stats : String → Option OptStats) (m minS maxS : ℚ) :
    PyRes (List Assignment) :=
  if session.lab_time.duration_hours < minS ∨
      maxS < session.lab_time.duration_hours then
    .ok []
  else
    match build_queue stats m session.lab_time.duration_hours
        original_proctors [] with
    | .error e => .error e
    | .ok queue => oselect queue []

/-- `_update_proctor_hours`: for each accepted proctor, add the duration of
its recorded `assigned_time` to the stats entry of its name. -/
def update_proctor_hours :
    List Assignment → (String → Option OptStats) →
      PyRes (String → Option OptStats)
  | [], stats => .ok stats
  | p :: rest, stats =>
    match stats p.Name with
    | none => .error (.keyError p.Name)
    | some st =>
      update_proctor_hours rest
        (fun n => if n = p.Name then
            some ⟨st.hours + p.assigned_time.duration_hours, st.star,
              st.availability⟩
          else stats n)

/-- `optimized_schedule[day].append(entry)`: append at the (always present)
day key; the keys of the output dict are exactly the keys of the input
schedule, and every processed triple's day is one of them. -/
def appendEntry (day : String) (e : Entry) : Schedule → Schedule
  | [] => []
  | (d, es) :: rest =>
    if d = day then (d, es ++ [e]) :: rest else (d, es) :: appendEntry day e rest

/-- Session loop of `optimize_schedule` over the sorted triples: emit a new
coverage and update the stats only when at least one proctor was selected. -/
def optimize_loop (m minS maxS : ℚ) :
    List (String × Entry × List Assignment) → (String → Option OptStats) →
      Schedule → PyRes (Schedule × (String → Option OptStats))
  | [], stats, out => .ok (out, stats)
  | (day, session, origs) :: rest, stats, out =>
    match find_best_proctors session origs stats m minS maxS with
    | .error e => .error e
    | .ok best =>
      if best.isEmpty then optimize_loop m minS maxS rest stats out
      else
        match update_proctor_hours best stats with
        | .error e => .error e
        | .ok stats' =>
          optimize_loop m minS maxS rest stats'
            (appendEntry day ⟨session.lab_time, best⟩ out)

/-- `ScheduleOptimizer.optimize_schedule` (defaults `15`, `2.5`, `4`).
Returns the final local `proctor_stats` alongside the schedule it
returns to the caller. -/
def optimize_schedule (schedule : Schedule) (m minS maxS : ℚ) :
    PyRes (Schedule × (String → Option OptStats)) :=
  optimize_loop m minS maxS (sort_sessions schedule)
    (initialize_proctor_stats schedule)
    (schedule.map (fun d => (d.1, ([] : List Entry))))

/-- The schedule value `optimize_schedule` returns to its caller. -/
def optimize_schedule_out (schedule : Schedule) (m minS maxS : ℚ) :
    PyRes Schedule :=
  Except.map Prod.fst (optimize_schedule schedule m minS maxS)

end ScheduleOptimizer

/-! ### `ProctorSchedulingSystem.generate_schedule` (ProctorSchedulingSystem.py)

For the key-mismatch claim the proctor records flowing out of
`_process_proctor_availabilities` are modelled as genuine string-keyed
dicts, so that `proctor['Name']` can raise `KeyError`. -/

namespace ProctorSchedulingSystem

/-- Values stored in a processed proctor record. -/
inductive PyVal : Type where
  | s : String → PyVal
  | b : Bool → PyVal
  | q : ℚ → PyVal
  | avail : List (String × List TimeSlot) → PyVal
deriving DecidableEq

/-- A Python dict with string keys, as an association list in insertion
order. -/
abbrev PyRecord := List (String × PyVal)

/-- `record[k]`: raises `KeyError` when the key is absent. -/
def dictGet (r : PyRecord) (k : String) : PyRes PyVal :=
  match assocLookup k r with
  | some v => .ok v
  | none => .error (.keyError k)

/-- One validated row of the proctors dataframe, after the upstream time
parsing: name, star flag, max hours and the per-day parsed availability. -/
structure ProctorRow : Type where
  Name : String
  Star : Bool
  MaxHours : ℚ
  availability : List (String × List TimeSlot)

/-- `_process_proctor_availabilities`: each produced record has exactly the
keys `'name'`, `'star'`, `'max_hours'`, `'availability'` (note the
lowercase `'name'`). -/
def process_proctor_availabilities (rows : List ProctorRow) : List PyRecord :=
  rows.map (fun r =>
    [("name", .s r.Name), ("star", .b r.Star), ("max_hours", .q r.MaxHours),
      ("availability", .avail r.availability)])

/-- `ScheduleGenerator._initialize_proctor_hours` applied to dict-level
records: the comprehension `{proctor['Name']: 0 for proctor in ...}` reads
`proctor['Name']` for each record in order (the result is the insertion
sequence of the built dict). -/
def initialize_proctor_hours_records (records : List PyRecord) :
    PyRes (List (PyVal × ℚ)) :=
  records.foldlM
    (fun acc r =>
      match dictGet r "Name" with
      | .error e => .error e
      | .ok v => .ok (acc ++ [(v, 0)]))
    []

/-- Reading one dict-level record at the keys the generator uses
(`'Name'`, `'star'`, `'availability'`). -/
def record_to_proctor (r : PyRecord) : PyRes Proctor :=
  match dictGet r "Name" with
  | .error e => .error e
  | .ok vn =>
    match dictGet r "star" with
    | .error e => .error e
    | .ok vs =>
      match dictGet r "availability" with
      | .error e => .error e
      | .ok va =>
        match vn, vs, va with
        | .s n, .b st, .avail av => .ok ⟨n, st, av⟩
        | _, _, _ => .error .typeError

/-- `ProctorSchedulingSystem.generate_schedule` after loading: process the
rows, run the generator (whose first step builds the weekly-hours dict,
reading `proctor['Name']` on every record), then the optimizer with the
literal arguments `15`, `2.5`, `4`.  The generator reads the records'
`'Name'`/`'star'`/`'availability'` keys; the reads are modelled up front,
which is exact here because the very first dict access already decides the
claim's error behaviour. -/
def generate_schedule (rows : List ProctorRow)
    (lab_times : List (String × List TimeSlot)) : PyRes Schedule :=
  match initialize_proctor_hours_records (process_proctor_availabilities rows) with
  | .error e => .error e
  | .ok _hours =>
    match (process_proctor_availabilities rows).mapM record_to_proctor with
    | .error e => .error e
    | .ok ps =>
      match ScheduleGenerator.default.generate_schedule_out ps lab_times with
      | .error e => .error e
      | .ok initial => ScheduleOptimizer.optimize_schedule_out initial 15 (5/2) 4

end ProctorSchedulingSystem

/-! ### Facts about the generator -/

namespace ScheduleGenerator

/-- The selection loop never grows the selection beyond 2 entries. -/
theorem select_best_proctors_length :
    ∀ (n : Nat) (heap : List Cand) (hours : String → ℚ)
      (sel : List Assignment) (out : List Assignment × (String → ℚ)),
      heap.length ≤ n →
      select_best_proctors heap hours sel = .ok out →
      sel.length ≤ 2 → out.1.length ≤ 2 := by
  intro n
  induction n with
  | zero =>
    intro heap hours sel out hn hok hsel
    have hemp : heap.isEmpty := by
      cases heap with
      | nil => rfl
      | cons a t => simp at hn
    rw [select_best_proctors_stop (Or.inl hemp)] at hok
    cases hok; exact hsel
  | succ n ih =>
    intro heap hours sel out hn hok hsel
    by_cases hstop : heap.isEmpty = true ∨ 2 ≤ sel.length
    · rw [select_best_proctors_stop hstop] at hok
      cases hok; exact hsel
    · rw [select_best_proctors_go hstop] at hok
      cases hp : heappop candLt heap with
      | error e => rw [hp] at hok; cases hok
      | ok p =>
        rw [hp] at hok
        have hlen := heappop_length hp
        have hsel' : sel.length ≤ 1 := by
          rcases not_or.mp hstop with ⟨_, h2⟩
          omega
        exact ih p.2 _ _ _ (by omega) hok (by simp; omega)

/-- Case analysis of `_select_best_proctors` started on an empty selection:
zero, one or two candidates are popped from the heap; each popped candidate
adds its overlap's duration to its proctor's weekly hours. -/
theorem select_best_proctors_cases {heap : List Cand} {hours : String → ℚ}
    {out : List Assignment × (String → ℚ)}
    (hok : select_best_proctors heap hours [] = .ok out) :
    (out.1 = [] ∧ ∀ n, out.2 n = hours n) ∨
    (∃ c₁, c₁ ∈ heap ∧ out.1 = [c₁.assignment] ∧
      ∀ n, out.2 n = hours n +
        (if n = c₁.proctor.Name then c₁.overlap.duration_hours else 0)) ∨
    (∃ c₁ c₂, c₁ ∈ heap ∧ c₂ ∈ heap ∧ out.1 = [c₁.assignment, c₂.assignment] ∧
      ∀ n, out.2 n = hours n +
        (if n = c₁.proctor.Name then c₁.overlap.duration_hours else 0) +
        (if n = c₂.proctor.Name then c₂.overlap.duration_hours else 0)) := by
  by_cases h0 : heap.isEmpty = true ∨ 2 ≤ ([] : List Assignment).length
  · rw [select_best_proctors_stop h0] at hok
    cases hok
    exact Or.inl ⟨rfl, fun n => rfl⟩
  · rw [select_best_proctors_go h0] at hok
    cases hp1 : heappop candLt heap with
    | error e => rw [hp1] at hok; cases hok
    | ok p1 =>
      rw [hp1] at hok
      dsimp only at hok
      obtain ⟨hc1, hsub1⟩ := mem_of_heappop hp1
      by_cases h1 : (p1.2).isEmpty = true ∨
          2 ≤ ([] ++ [p1.1.assignment] : List Assignment).length
      · rw [select_best_proctors_stop h1] at hok
        cases hok
        refine Or.inr (Or.inl ⟨p1.1, hc1, rfl, fun n => ?_⟩)
        dsimp only
        by_cases hn : n = p1.1.proctor.Name
        · simp only [if_pos hn]
        · simp only [if_neg hn]; ring
      · rw [select_best_proctors_go h1] at hok
        cases hp2 : heappop candLt p1.2 with
        | error e => rw [hp2] at hok; cases hok
        | ok p2 =>
          rw [hp2] at hok
          dsimp only at hok
          obtain ⟨hc2, _⟩ := mem_of_heappop hp2
          rw [select_best_proctors_stop (Or.inr (by simp))] at hok
          cases hok
          refine Or.inr (Or.inr ⟨p1.1, p2.1, hc1, hsub1 _ hc2, rfl, fun n => ?_⟩)
          dsimp only
          by_cases hn2 : n = p2.1.proctor.Name
          · by_cases hn1 : n = p1.1.proctor.Name
            · simp only [if_pos hn2, if_pos hn1]; try ring
            · simp only [if_pos hn2, if_neg hn1]; try ring
          · by_cases hn1 : n = p1.1.proctor.Name
            · simp only [if_neg hn2, if_pos hn1]; try ring
            · simp only [if_neg hn2, if_neg hn1]; try ring

/-- Every candidate the session loop pushes was admissible
(`_is_valid_assignment`) for the hours map as it stood when the session's
candidate collection began. -/
theorem push_slot_candidates_good {self : ScheduleGenerator}
    {hours : String → ℚ} {p : Proctor} {lab_slot : TimeSlot} :
    ∀ (slots : List TimeSlot) (heap heap' : List Cand),
      push_slot_candidates self hours p lab_slot slots heap = .ok heap' →
      ∀ c ∈ heap', c ∈ heap ∨
        is_valid_assignment self hours c.proctor.Name
          c.overlap.duration_hours = true := by
  intro slots
  induction slots with
  | nil =>
    intro heap heap' hok c hc
    cases hok; exact Or.inl hc
  | cons s rest ih =>
    intro heap heap' hok c hc
    unfold push_slot_candidates at hok
    cases hov : lab_slot.get_overlap s with
    | none =>
      rw [hov] at hok
      exact ih _ _ hok c hc
    | some overlap =>
      rw [hov] at hok
      dsimp only at hok
      by_cases hval : is_valid_assignment self hours p.Name
          overlap.duration_hours = true
      · rw [if_pos hval] at hok
        cases hpush : heappush candLt heap
            ⟨-(calculate_priority_score self hours p overlap.duration_hours),
              p, overlap⟩ with
        | error e => rw [hpush] at hok; cases hok
        | ok heap2 =>
          rw [hpush] at hok
          rcases ih _ _ hok c hc with h | h
          · rcases mem_heappush hpush h with h' | h'
            · subst h'; exact Or.inr hval
            · exact Or.inl h'
          · exact Or.inr h
      · rw [if_neg hval] at hok
        exact ih _ _ hok c hc

/-- Every candidate collected for a session was admissible for the hours
map at the start of the session. -/
theorem candidate_loop_good {self : ScheduleGenerator} {hours : String → ℚ}
    {lab_slot : TimeSlot} {day : String} :
    ∀ (ps : List Proctor) (heap heap' : List Cand),
      candidate_loop self hours lab_slot day ps heap = .ok heap' →
      ∀ c ∈ heap', c ∈ heap ∨
        is_valid_assignment self hours c.proctor.Name
          c.overlap.duration_hours = true := by
  intro ps
  induction ps with
  | nil =>
    intro heap heap' hok c hc
    cases hok; exact Or.inl hc
  | cons p rest ih =>
    intro heap heap' hok c hc
    unfold candidate_loop at hok
    cases hav : assocLookup day p.availability with
    | none =>
      rw [hav] at hok
      exact ih _ _ hok c hc
    | some slots =>
      rw [hav] at hok
      dsimp only at hok
      cases hps : push_slot_candidates self hours p lab_slot slots heap with
      | error e => rw [hps] at hok; cases hok
      | ok heap2 =>
        rw [hps] at hok
        rcases ih _ _ hok c hc with h | h
        · exact push_slot_candidates_good _ _ _ hps c h
        · exact Or.inr h

end ScheduleGenerator

/-! ### Observed totals

The sum, over a produced schedule, of the durations of the overlaps
assigned to a given proctor name. -/

/-- Total assigned-overlap duration for `name` in one coverage list. -/
def assigned_overlap_sum (proctors : List Assignment) (name : String) : ℚ :=
  (proctors.map
    (fun a => if a.Name = name then a.assigned_time.duration_hours else 0)).sum

/-- Total assigned-overlap duration for `name` over a day's coverages. -/
def day_overlap_sum (entries : List Entry) (name : String) : ℚ :=
  (entries.map (fun e => assigned_overlap_sum e.proctors name)).sum

/-- Total assigned-overlap duration for `name` over a whole schedule. -/
def schedule_overlap_sum (schedule : Schedule) (name : String) : ℚ :=
  (schedule.map (fun d => day_overlap_sum d.2 name)).sum

theorem day_overlap_sum_append (entries : List Entry) (e : Entry) (q : String) :
    day_overlap_sum (entries ++ [e]) q =
      day_overlap_sum entries q + assigned_overlap_sum e.proctors q := by
  simp [day_overlap_sum]

namespace ScheduleGenerator

/-- Unpacking the admissibility check. -/
theorem is_valid_assignment_unpack {self : ScheduleGenerator}
    {hours : String → ℚ} {name : String} {d : ℚ}
    (h : is_valid_assignment self hours name d = true) :
    self.min_shift_duration ≤ d ∧ d ≤ self.max_shift_duration ∧
      hours name + d ≤ self.max_weekly_hours := by
  unfold is_valid_assignment at h
  simpa [and_assoc] using h

/-- Case analysis of `_assign_proctors_to_session`: at most two candidates
are accepted; every accepted candidate passed `_is_valid_assignment`
against the hours map as it stood at the start of the session, and the
hours map is advanced by each accepted overlap's duration. -/
theorem assign_session_cases {self : ScheduleGenerator} {hours : String → ℚ}
    {s : TimeSlot} {ps : List Proctor} {day : String}
    {out : List Assignment × (String → ℚ)}
    (hok : assign_proctors_to_session self hours s ps day = .ok out) :
    (out.1 = [] ∧ ∀ n, out.2 n = hours n) ∨
    (∃ c₁ : Cand, is_valid_assignment self hours c₁.proctor.Name
        c₁.overlap.duration_hours = true ∧
      out.1 = [c₁.assignment] ∧
      ∀ n, out.2 n = hours n +
        (if n = c₁.proctor.Name then c₁.overlap.duration_hours else 0)) ∨
    (∃ c₁ c₂ : Cand, is_valid_assignment self hours c₁.proctor.Name
        c₁.overlap.duration_hours = true ∧
      is_valid_assignment self hours c₂.proctor.Name
        c₂.overlap.duration_hours = true ∧
      out.1 = [c₁.assignment, c₂.assignment] ∧
      ∀ n, out.2 n = hours n +
        (if n = c₁.proctor.Name then c₁.overlap.duration_hours else 0) +
        (if n = c₂.proctor.Name then c₂.overlap.duration_hours else 0)) := by
  unfold assign_proctors_to_session at hok
  cases hcl : candidate_loop self hours s day ps [] with
  | error e => rw [hcl] at hok; cases hok
  | ok heap =>
    rw [hcl] at hok
    have hgood : ∀ c ∈ heap, is_valid_assignment self hours c.proctor.Name
        c.overlap.duration_hours = true := by
      intro c hc
      rcases candidate_loop_good _ _ _ hcl c hc with h | h
      · cases h
      · exact h
    rcases select_best_proctors_cases hok with h | ⟨c₁, hc₁, h⟩ | ⟨c₁, c₂, hc₁, hc₂, h⟩
    · exact Or.inl h
    · exact Or.inr (Or.inl ⟨c₁, hgood _ hc₁, h⟩)
    · exact Or.inr (Or.inr ⟨c₁, c₂, hgood _ hc₁, hgood _ hc₂, h⟩)

/-- One session keeps every proctor's weekly hours at or below
`max_weekly_hours + max_shift_duration`. -/
theorem assign_session_bound {self : ScheduleGenerator} {hours : String → ℚ}
    {s : TimeSlot} {ps : List Proctor} {day : String}
    {out : List Assignment × (String → ℚ)}
    (hok : assign_proctors_to_session self hours s ps day = .ok out)
    (hms : 0 ≤ self.max_shift_duration)
    (hB : ∀ q, hours q ≤ self.max_weekly_hours + self.max_shift_duration) :
    ∀ q, out.2 q ≤ self.max_weekly_hours + self.max_shift_duration := by
  intro q
  rcases assign_session_cases hok with ⟨_, hh⟩ | ⟨c₁, hv₁, _, hh⟩ |
      ⟨c₁, c₂, hv₁, hv₂, _, hh⟩
  · rw [hh]; exact hB q
  · rw [hh]
    obtain ⟨_, _, hw₁⟩ := is_valid_assignment_unpack hv₁
    by_cases hq : q = c₁.proctor.Name
    · rw [if_pos hq, hq]; linarith
    · rw [if_neg hq]; have := hB q; linarith
  · rw [hh]
    obtain ⟨_, hs₁, hw₁⟩ := is_valid_assignment_unpack hv₁
    obtain ⟨_, hs₂, hw₂⟩ := is_valid_assignment_unpack hv₂
    by_cases hq₁ : q = c₁.proctor.Name <;> by_cases hq₂ : q = c₂.proctor.Name
    · have hq₁₂ : c₁.proctor.Name = c₂.proctor.Name := by rw [← hq₁, ← hq₂]
      rw [if_pos hq₁, if_pos hq₂, hq₁, hq₁₂]
      rw [hq₁₂] at hw₁
      linarith
    · rw [if_pos hq₁, if_neg hq₂, hq₁]; linarith
    · rw [if_neg hq₁, if_pos hq₂, hq₂]; linarith
    · rw [if_neg hq₁, if_neg hq₂]; have := hB q; linarith

/-- One session advances the hours map by exactly the assigned-overlap
durations it emits. -/
theorem assign_session_sum {self : ScheduleGenerator} {hours : String → ℚ}
    {s : TimeSlot} {ps : List Proctor} {day : String}
    {out : List Assignment × (String → ℚ)}
    (hok : assign_proctors_to_session self hours s ps day = .ok out) :
    ∀ q, out.2 q = hours q + assigned_overlap_sum out.1 q := by
  intro q
  rcases assign_session_cases hok with ⟨he, hh⟩ | ⟨c₁, _, he, hh⟩ |
      ⟨c₁, c₂, _, _, he, hh⟩
  · rw [hh, he]; simp [assigned_overlap_sum]
  · rw [hh, he]
    simp only [assigned_overlap_sum, List.map_cons, List.map_nil, List.sum_cons,
      List.sum_nil, Cand.assignment]
    by_cases hq : q = c₁.proctor.Name
    · rw [if_pos hq, if_pos hq.symm]; ring
    · rw [if_neg hq, if_neg (fun h => hq h.symm)]; ring
  · rw [hh, he]
    simp only [assigned_overlap_sum, List.map_cons, List.map_nil, List.sum_cons,
      List.sum_nil, Cand.assignment]
    by_cases hq₁ : q = c₁.proctor.Name <;> by_cases hq₂ : q = c₂.proctor.Name
    · rw [if_pos hq₁, if_pos hq₂, if_pos hq₁.symm, if_pos hq₂.symm]; ring
    · rw [if_pos hq₁, if_neg hq₂, if_pos hq₁.symm,
        if_neg (fun h => hq₂ h.symm)]; ring
    · rw [if_neg hq₁, if_pos hq₂, if_neg (fun h => hq₁ h.symm),
        if_pos hq₂.symm]; ring
    · rw [if_neg hq₁, if_neg hq₂, if_neg (fun h => hq₁ h.symm),
        if_neg (fun h => hq₂ h.symm)]; ring

/-- Invariant transfer to every coverage entry a day loop emits. -/
theorem day_schedule_loop_entries {self : ScheduleGenerator}
    {proctors : List Proctor} {day : String} (Q : Entry → Prop)
    (hQ : ∀ (hours₀ h' : String → ℚ) (s : TimeSlot) (assigned : List Assignment),
      ¬ s.duration_hours < self.min_shift_duration →
      assign_proctors_to_session self hours₀ s proctors day = .ok (assigned, h') →
      assigned ≠ [] → Q ⟨s, assigned⟩) :
    ∀ (sessions : List TimeSlot) (hours : String → ℚ) (acc : List Entry)
      (out : List Entry × (String → ℚ)),
      day_schedule_loop self proctors day sessions hours acc = .ok out →
      (∀ e ∈ acc, Q e) → ∀ e ∈ out.1, Q e := by
  intro sessions
  induction sessions with
  | nil =>
    intro hours acc out hok hacc
    cases hok; exact hacc
  | cons s rest ih =>
    intro hours acc out hok hacc
    unfold day_schedule_loop at hok
    by_cases hshort : s.duration_hours < self.min_shift_duration
    · rw [if_pos hshort] at hok
      exact ih _ _ _ hok hacc
    · rw [if_neg hshort] at hok
      cases hass : assign_proctors_to_session self hours s proctors day with
      | error e => rw [hass] at hok; cases hok
      | ok pr =>
        rw [hass] at hok
        dsimp only at hok
        by_cases hemp : pr.1.isEmpty
        · rw [if_pos hemp] at hok
          exact ih _ _ _ hok hacc
        · rw [if_neg hemp] at hok
          refine ih _ _ _ hok ?_
          intro e he
          rcases List.mem_append.mp he with h | h
          · exact hacc e h
          · have he' : e = ⟨s, pr.1⟩ := by simpa using h
            subst he'
            exact hQ hours pr.2 s pr.1 hshort (by simpa using hass)
              (by simpa [List.isEmpty_iff] using hemp)

/-- The day loop advances the hours map by exactly the emitted
assigned-overlap durations. -/
theorem day_schedule_loop_sum {self : ScheduleGenerator}
    {proctors : List Proctor} {day : String} :
    ∀ (sessions : List TimeSlot) (hours : String → ℚ) (acc : List Entry)
      (out : List Entry × (String → ℚ)),
      day_schedule_loop self proctors day sessions hours acc = .ok out →
      ∀ q, out.2 q + day_overlap_sum acc q = hours q + day_overlap_sum out.1 q := by
  intro sessions
  induction sessions with
  | nil =>
    intro hours acc out hok q
    cases hok; ring
  | cons s rest ih =>
    intro hours acc out hok q
    unfold day_schedule_loop at hok
    by_cases hshort : s.duration_hours < self.min_shift_duration
    · rw [if_pos hshort] at hok
      exact ih _ _ _ hok q
    · rw [if_neg hshort] at hok
      cases hass : assign_proctors_to_session self hours s proctors day with
      | error e => rw [hass] at hok; cases hok
      | ok pr =>
        rw [hass] at hok
        dsimp only at hok
        have hsum := assign_session_sum hass
        by_cases hemp : pr.1.isEmpty
        · rw [if_pos hemp] at hok
          have h1 := ih _ _ _ hok q
          have h2 := hsum q
          have hnil : pr.1 = [] := by simpa [List.isEmpty_iff] using hemp
          rw [hnil] at h2
          simp [assigned_overlap_sum] at h2
          rw [h2] at h1
          linarith
        · rw [if_neg hemp] at hok
          have h1 := ih _ _ _ hok q
          have h2 := hsum q
          rw [day_overlap_sum_append] at h1
          dsimp only at h1
          rw [h2] at h1
          linarith

/-- The day loop keeps every proctor's hours at or below
`max_weekly_hours + max_shift_duration`. -/
theorem day_schedule_loop_bound {self : ScheduleGenerator}
    {proctors : List Proctor} {day : String}
    (hms : 0 ≤ self.max_shift_duration) :
    ∀ (sessions : List TimeSlot) (hours : String → ℚ) (acc : List Entry)
      (out : List Entry × (String → ℚ)),
      day_schedule_loop self proctors day sessions hours acc = .ok out →
      (∀ q, hours q ≤ self.max_weekly_hours + self.max_shift_duration) →
      ∀ q, out.2 q ≤ self.max_weekly_hours + self.max_shift_duration := by
  intro sessions
  induction sessions with
  | nil =>
    intro hours acc out hok hB
    cases hok; exact hB
  | cons s rest ih =>
    intro hours acc out hok hB
    unfold day_schedule_loop at hok
    by_cases hshort : s.duration_hours < self.min_shift_duration
    · rw [if_pos hshort] at hok
      exact ih _ _ _ hok hB
    · rw [if_neg hshort] at hok
      cases hass : assign_proctors_to_session self hours s proctors day with
      | error e => rw [hass] at hok; cases hok
      | ok pr =>
        rw [hass] at hok
        dsimp only at hok
        have hb := assign_session_bound hass hms hB
        by_cases hemp : pr.1.isEmpty
        · rw [if_pos hemp] at hok
          exact ih _ _ _ hok hb
        · rw [if_neg hemp] at hok
          exact ih _ _ _ hok hb

/-- Entry invariant over all days of a generation run. -/
theorem generate_days_entries {self : ScheduleGenerator}
    {proctors : List Proctor} (Q : Entry → Prop)
    (hQ : ∀ (day : String) (hours₀ h' : String → ℚ) (s : TimeSlot)
        (assigned : List Assignment),
      ¬ s.duration_hours < self.min_shift_duration →
      assign_proctors_to_session self hours₀ s proctors day = .ok (assigned, h') →
      assigned ≠ [] → Q ⟨s, assigned⟩) :
    ∀ (days : List (String × List TimeSlot)) (hours : String → ℚ)
      (out : Schedule × (String → ℚ)),
      generate_days self proctors days hours = .ok out →
      ∀ d entries, (d, entries) ∈ out.1 → ∀ e ∈ entries, Q e := by
  intro days
  induction days with
  | nil =>
    intro hours out hok d entries hmem
    cases hok; cases hmem
  | cons dayp rest ih =>
    intro hours out hok d entries hmem e he
    unfold generate_days at hok
    cases hday : generate_day_schedule self dayp.1 dayp.2 proctors hours with
    | error e2 => rw [hday] at hok; cases hok
    | ok pr =>
      rw [hday] at hok
      try dsimp only at hok
      cases hrest : generate_days self proctors rest pr.2 with
      | error e2 => rw [hrest] at hok; cases hok
      | ok out2 =>
        rw [hrest] at hok
        cases hok
        have hmem' : (d, entries) ∈ (dayp.1, pr.1) :: out2.1 := hmem
        rcases List.mem_cons.mp hmem' with h | h
        · have hent : entries = pr.1 := congrArg Prod.snd h
          subst hent
          exact day_schedule_loop_entries Q (fun a b c d₂ => hQ dayp.1 a b c d₂)
            _ _ _ _ hday (by intro x hx; cases hx) e he
        · exact ih pr.2 out2 hrest d entries h e he

/-- Across all days the final hours map equals the initial map plus the
per-name assigned-overlap total of the produced schedule. -/
theorem generate_days_sum {self : ScheduleGenerator} {proctors : List Proctor} :
    ∀ (days : List (String × List TimeSlot)) (hours : String → ℚ)
      (out : Schedule × (String → ℚ)),
      generate_days self proctors days hours = .ok out →
      ∀ q, out.2 q = hours q + schedule_overlap_sum out.1 q := by
  intro days
  induction days with
  | nil =>
    intro hours out hok q
    cases hok; simp [schedule_overlap_sum]
  | cons dayp rest ih =>
    intro hours out hok q
    unfold generate_days at hok
    cases hday : generate_day_schedule self dayp.1 dayp.2 proctors hours with
    | error e2 => rw [hday] at hok; cases hok
    | ok pr =>
      rw [hday] at hok
      try dsimp only at hok
      cases hrest : generate_days self proctors rest pr.2 with
      | error e2 => rw [hrest] at hok; cases hok
      | ok out2 =>
        rw [hrest] at hok
        cases hok
        have h1 := day_schedule_loop_sum _ _ _ _ hday q
        simp [day_overlap_sum] at h1
        have h2 := ih _ _ hrest q
        simp only [schedule_overlap_sum, List.map_cons, List.sum_cons]
        try dsimp only
        rw [h2, h1]
        simp only [day_overlap_sum, schedule_overlap_sum]
        ring

/-- Across all days the hours bound is preserved. -/
theorem generate_days_bound {self : ScheduleGenerator} {proctors : List Proctor}
    (hms : 0 ≤ self.max_shift_duration) :
    ∀ (days : List (String × List TimeSlot)) (hours : String → ℚ)
      (out : Schedule × (String → ℚ)),
      generate_days self proctors days hours = .ok out →
      (∀ q, hours q ≤ self.max_weekly_hours + self.max_shift_duration) →
      ∀ q, out.2 q ≤ self.max_weekly_hours + self.max_shift_duration := by
  intro days
  induction days with
  | nil =>
    intro hours out hok hB
    cases hok; exact hB
  | cons dayp rest ih =>
    intro hours out hok hB
    unfold generate_days at hok
    cases hday : generate_day_schedule self dayp.1 dayp.2 proctors hours with
    | error e2 => rw [hday] at hok; cases hok
    | ok pr =>
      rw [hday] at hok
      try dsimp only at hok
      cases hrest : generate_days self proctors rest pr.2 with
      | error e2 => rw [hrest] at hok; cases hok
      | ok out2 =>
        rw [hrest] at hok
        cases hok
        exact ih pr.2 out2 hrest (day_schedule_loop_bound hms _ _ _ _ hday hB)

end ScheduleGenerator

/-! ### Facts about the optimizer -/

namespace ScheduleOptimizer

/-- The optimizer's selection loop never grows the selection beyond 2. -/
theorem oselect_length :
    ∀ (n : Nat) (queue : List OCand) (sel sel' : List Assignment),
      queue.length ≤ n →
      oselect queue sel = .ok sel' →
      sel.length ≤ 2 → sel'.length ≤ 2 := by
  intro n
  induction n with
  | zero =>
    intro queue sel sel' hn hok hsel
    have hemp : queue.isEmpty := by
      cases queue with
      | nil => rfl
      | cons a t => simp at hn
    rw [oselect_stop (Or.inl hemp)] at hok
    cases hok; exact hsel
  | succ n ih =>
    intro queue sel sel' hn hok hsel
    by_cases hstop : queue.isEmpty = true ∨ 2 ≤ sel.length
    · rw [oselect_stop hstop] at hok
      cases hok; exact hsel
    · rw [oselect_go hstop] at hok
      cases hp : heappop ocandLt queue with
      | error e => rw [hp] at hok; cases hok
      | ok p =>
        rw [hp] at hok
        have hlen := heappop_length hp
        rcases not_or.mp hstop with ⟨_, h2⟩
        exact ih p.2 _ _ (by omega) hok (by simp; omega)

/-- Everything the selection loop returns was already selected or is the
`proctor` component of a queue element. -/
theorem oselect_mem :
    ∀ (n : Nat) (queue : List OCand) (sel sel' : List Assignment),
      queue.length ≤ n →
      oselect queue sel = .ok sel' →
      ∀ a ∈ sel', a ∈ sel ∨ ∃ c ∈ queue, a = c.proctor := by
  intro n
  induction n with
  | zero =>
    intro queue sel sel' hn hok
    have hemp : queue.isEmpty := by
      cases queue with
      | nil => rfl
      | cons a t => simp at hn
    rw [oselect_stop (Or.inl hemp)] at hok
    cases hok; exact fun a ha => Or.inl ha
  | succ n ih =>
    intro queue sel sel' hn hok a ha
    by_cases hstop : queue.isEmpty = true ∨ 2 ≤ sel.length
    · rw [oselect_stop hstop] at hok
      cases hok; exact Or.inl ha
    · rw [oselect_go hstop] at hok
      cases hp : heappop ocandLt queue with
      | error e => rw [hp] at hok; cases hok
      | ok p =>
        rw [hp] at hok
        have hlen := heappop_length hp
        obtain ⟨hc, hsub⟩ := mem_of_heappop hp
        rcases ih p.2 _ _ (by omega) hok a ha with h | ⟨c, hcq, hac⟩
        · rcases List.mem_append.mp h with h' | h'
          · exact Or.inl h'
          · exact Or.inr ⟨p.1, hc, by simpa using h'⟩
        · exact Or.inr ⟨c, hsub c hcq, hac⟩

/-- Every element of the built candidate queue was already queued or its
`proctor` component is one of the session's original proctors. -/
theorem build_queue_mem {stats : String → Option OptStats} {m dur : ℚ} :
    ∀ (origs : List Assignment) (queue queue' : List OCand),
      build_queue stats m dur origs queue = .ok queue' →
      ∀ c ∈ queue', c ∈ queue ∨ c.proctor ∈ origs := by
  intro origs
  induction origs with
  | nil =>
    intro queue queue' hok c hc
    cases hok; exact Or.inl hc
  | cons p rest ih =>
    intro queue queue' hok c hc
    unfold build_queue at hok
    cases hst : stats p.Name with
    | none => rw [hst] at hok; cases hok
    | some st =>
      rw [hst] at hok
      dsimp only at hok
      by_cases hskip : m < st.hours + dur
      · rw [if_pos hskip] at hok
        rcases ih _ _ hok c hc with h | h
        · exact Or.inl h
        · exact Or.inr (by simp [h])
      · rw [if_neg hskip] at hok
        cases hpush : heappush ocandLt queue
            ⟨-(calculate_priority_score st dur), p.Name, p⟩ with
        | error e => rw [hpush] at hok; cases hok
        | ok q2 =>
          rw [hpush] at hok
          rcases ih _ _ hok c hc with h | h
          · rcases mem_heappush hpush h with h' | h'
            · subst h'; exact Or.inr (by simp)
            · exact Or.inl h'
          · exact Or.inr (by simp [h])

/-- `_find_best_proctors` returns at most 2 proctors, all drawn from the
session's original proctors; a non-empty result certifies that the
session's duration lies within the shift bounds. -/
theorem find_best_proctors_spec {session : Entry} {origs : List Assignment}
    {stats : String → Option OptStats} {m minS maxS : ℚ}
    {best : List Assignment}
    (hok : find_best_proctors session origs stats m minS maxS = .ok best) :
    best.length ≤ 2 ∧ (∀ a ∈ best, a ∈ origs) ∧
      (best ≠ [] → ¬ (session.lab_time.duration_hours < minS ∨
        maxS < session.lab_time.duration_hours)) := by
  unfold find_best_proctors at hok
  by_cases hdur : session.lab_time.duration_hours < minS ∨
      maxS < session.lab_time.duration_hours
  · rw [if_pos hdur] at hok
    cases hok
    exact ⟨by simp, by simp, fun h => absurd rfl h⟩
  · rw [if_neg hdur] at hok
    cases hbq : build_queue stats m session.lab_time.duration_hours origs [] with
    | error e => rw [hbq] at hok; cases hok
    | ok queue =>
      rw [hbq] at hok
      refine ⟨oselect_length queue.length _ _ _ le_rfl hok (by simp), ?_, fun _ => hdur⟩
      intro a ha
      rcases oselect_mem queue.length _ _ _ le_rfl hok a ha with h | ⟨c, hcq, hac⟩
      · cases h
      · rcases build_queue_mem _ _ _ hbq c hcq with h | h
        · cases h
        · exact hac ▸ h

/-- Membership in the schedule after `optimized_schedule[day].append(e)`. -/
theorem mem_appendEntry {day : String} {e : Entry} :
    ∀ (out : Schedule) (d : String) (entries : List Entry),
      (d, entries) ∈ appendEntry day e out →
      (d, entries) ∈ out ∨
        (d = day ∧ ∃ es, (d, es) ∈ out ∧ entries = es ++ [e]) := by
  intro out
  induction out with
  | nil =>
    intro d entries hmem
    cases hmem
  | cons de rest ih =>
    intro d entries hmem
    unfold appendEntry at hmem
    by_cases hd : de.1 = day
    · rw [if_pos hd] at hmem
      rcases List.mem_cons.mp hmem with h | h
      · have h1 : d = de.1 := congrArg Prod.fst h
        have h2 : entries = de.2 ++ [e] := congrArg Prod.snd h
        right
        refine ⟨by rw [h1, hd], de.2, ?_, h2⟩
        rw [h1]
        exact List.mem_cons_self _ _
      · exact Or.inl (List.mem_cons_of_mem _ h)
    · rw [if_neg hd] at hmem
      rcases List.mem_cons.mp hmem with h | h
      · exact Or.inl (h ▸ List.mem_cons_self _ _)
      · rcases ih d entries h with h' | ⟨h1, es, hes, h2⟩
        · exact Or.inl (List.mem_cons_of_mem _ h')
        · exact Or.inr ⟨h1, es, List.mem_cons_of_mem _ hes, h2⟩

/-- Entry invariant over the optimizer's session loop: any property that
holds of every already-emitted entry and of every newly emitted coverage
`⟨session.lab_time, best⟩` holds of every entry of the final schedule. -/
theorem optimize_loop_entries {m minS maxS : ℚ} (Q : String → Entry → Prop) :
    ∀ (items : List (String × Entry × List Assignment))
      (stats : String → Option OptStats) (out : Schedule)
      (res : Schedule × (String → Option OptStats)),
      optimize_loop m minS maxS items stats out = .ok res →
      (∀ d entries, (d, entries) ∈ out → ∀ e ∈ entries, Q d e) →
      (∀ day session origs stats₀ best,
        (day, session, origs) ∈ items →
        find_best_proctors session origs stats₀ m minS maxS = .ok best →
        best ≠ [] → Q day ⟨session.lab_time, best⟩) →
      ∀ d entries, (d, entries) ∈ res.1 → ∀ e ∈ entries, Q d e := by
  intro items
  induction items with
  | nil =>
    intro stats out res hok hout _ d entries hmem
    cases hok; exact hout d entries hmem
  | cons it rest ih =>
    intro stats out res hok hout hnew d entries hmem
    unfold optimize_loop at hok
    cases hfb : find_best_proctors it.2.1 it.2.2 stats m minS maxS with
    | error e => rw [hfb] at hok; cases hok
    | ok best =>
      rw [hfb] at hok
      dsimp only at hok
      by_cases hemp : best.isEmpty
      · rw [if_pos hemp] at hok
        exact ih _ _ _ hok hout
          (fun day session origs stats₀ b hi0 => hnew day session origs stats₀ b
            (List.mem_cons_of_mem _ hi0)) d entries hmem
      · rw [if_neg hemp] at hok
        cases hupd : update_proctor_hours best stats with
        | error e => rw [hupd] at hok; cases hok
        | ok stats2 =>
          rw [hupd] at hok
          refine ih _ _ _ hok ?_ (fun day session origs stats₀ b hi =>
            hnew day session origs stats₀ b (List.mem_cons_of_mem _ hi))
            d entries hmem
          intro d2 entries2 hmem2 e he
          rcases mem_appendEntry _ _ _ hmem2 with h | ⟨hd, es, hes, happ⟩
          · exact hout d2 entries2 h e he
          · subst happ
            rcases List.mem_append.mp he with h' | h'
            · exact hout d2 es hes e h'
            · have he' : e = ⟨it.2.1.lab_time, best⟩ := by simpa using h'
              subst he'
              exact hd ▸ hnew it.1 it.2.1 it.2.2 stats best
                (by simpa using List.mem_cons_self it rest) hfb
                (by simpa [List.isEmpty_iff] using hemp)

/-- The origin of a sorted triple: it stems from some day of the input
schedule, and its third component is the session's own proctor list. -/
theorem mem_sort_sessions {schedule : Schedule} {day : String} {session : Entry}
    {origs : List Assignment}
    (h : (day, session, origs) ∈ sort_sessions schedule) :
    ∃ entries, (day, entries) ∈ schedule ∧ session ∈ entries ∧
      origs = session.proctors := by
  have h' := mem_pySorted h
  rcases List.mem_flatMap.mp h' with ⟨d, hd, hmem⟩
  rcases List.mem_map.mp hmem with ⟨e, he, heq⟩
  have h1 : day = d.1 := (congrArg Prod.fst heq).symm
  have h2 : session = e := (congrArg (fun x => x.2.1) heq).symm
  have h3 : origs = e.proctors := (congrArg (fun x => x.2.2) heq).symm
  exact ⟨d.2, by rw [h1]; exact (by simpa using hd), by rw [h2]; exact he,
    by rw [h3, h2]⟩

end ScheduleOptimizer

/-- The per-candidate score formula asserted by the specification for the
optimizer (§4.3): `1000·isStar + (maxWeeklyHours − cumulativeHours) +
10·availabilityScore`, parameterised by the weekly ceiling `m` that is
passed to `optimize_schedule`.  Stated from the spec's words, for
comparison with the source's `_calculate_priority_score`. -/
def spec_priority_score (m : ℚ) (stats : ScheduleOptimizer.OptStats) : ℚ :=
  (if stats.star then 1000 else 0) + (m - stats.hours) +
    10 * (stats.availability : ℚ)

/-! ### The claims -/

/-- C3: for every loaded input with at least one proctor record, the
pipeline's `generate_schedule` raises `KeyError('Name')` before producing
any schedule: `_process_proctor_availabilities` keys the records with
lowercase `'name'`, while `ScheduleGenerator._initialize_proctor_hours`
reads `proctor['Name']` on the very first record. -/
theorem C3_pipeline_key_error (r : ProctorSchedulingSystem.ProctorRow)
    (rows : List ProctorSchedulingSystem.ProctorRow)
    (lab_times : List (String × List TimeSlot)) :
    ProctorSchedulingSystem.generate_schedule (r :: rows) lab_times =
      .error (.keyError "Name") := by
  unfold ProctorSchedulingSystem.generate_schedule
  have h1 : ProctorSchedulingSystem.initialize_proctor_hours_records
      (ProctorSchedulingSystem.process_proctor_availabilities (r :: rows)) =
      .error (.keyError "Name") := by
    unfold ProctorSchedulingSystem.process_proctor_availabilities
      ProctorSchedulingSystem.initialize_proctor_hours_records
    simp only [List.map_cons, List.foldlM_cons]
    have h2 : ProctorSchedulingSystem.dictGet
        [("name", .s r.Name), ("star", .b r.Star), ("max_hours", .q r.MaxHours),
          ("availability", .avail r.availability)] "Name" =
        .error (.keyError "Name") := by
      simp +decide [ProctorSchedulingSystem.dictGet, assocLookup]
    rw [h2]
    rfl
  rw [h1]

/-- C4: two distinct admissible candidates with exactly equal priority
scores crash the generator: `heapq.heappush` compares the tuples
`(-score, proctor, overlap)`, and with equal scores Python falls through to
comparing the two proctor dicts, which raises `TypeError`.  Two non-star
proctors with one availability slot each and equal hours tie exactly. -/
theorem C4_equal_scores_type_error :
    ScheduleGenerator.default.generate_schedule_out
      [⟨"A", false, [("Monday", [⟨540, 720⟩])]⟩,
       ⟨"B", false, [("Monday", [⟨540, 720⟩])]⟩]
      [("Monday", [⟨540, 720⟩])] = .error .typeError := by
  norm_num +decide [ScheduleGenerator.default,
    ScheduleGenerator.generate_schedule_out, ScheduleGenerator.generate_schedule,
    ScheduleGenerator.generate_days, ScheduleGenerator.generate_day_schedule,
    ScheduleGenerator.day_schedule_loop, pySorted, pyInsert,
    ScheduleGenerator.assign_proctors_to_session, ScheduleGenerator.candidate_loop,
    ScheduleGenerator.push_slot_candidates, assocLookup, TimeSlot.get_overlap,
    TimeSlot.overlaps_with, TimeSlot.duration_hours,
    ScheduleGenerator.is_valid_assignment,
    ScheduleGenerator.calculate_priority_score,
    ScheduleGenerator.initialize_proctor_hours, heappush, heappop, siftup,
    siftdownLoop_go, siftdownLoop_stop, siftupLoop_two, siftupLoop_one,
    siftupLoop_leaf, ScheduleGenerator.select_best_proctors_stop,
    ScheduleGenerator.select_best_proctors_go, ScheduleGenerator.candLt,
    ScheduleGenerator.Cand.assignment,
    Except.map]

/-- C5 (counterexample): the optimizer's score hard-codes `15` in its hours
factor, so for a ceiling `m = 20` the claimed formula
`1000·isStar + (m − cumulativeHours) + 10·availabilityScore` disagrees with
the code: a non-star proctor with 5 cumulative hours and availability 1
scores `20`, not the claimed `25`. -/
theorem C5_counterexample :
    ScheduleOptimizer.calculate_priority_score ⟨5, false, 1⟩ 3 = 20 ∧
    spec_priority_score 20 ⟨5, false, 1⟩ = 25 ∧
    ScheduleOptimizer.calculate_priority_score ⟨5, false, 1⟩ 3 ≠
      spec_priority_score 20 ⟨5, false, 1⟩ := by
  refine ⟨?_, ?_, ?_⟩ <;>
    norm_num [ScheduleOptimizer.calculate_priority_score, spec_priority_score]

/-- C5 (amended): for every candidate and every session duration the
optimizer's priority score equals the claimed formula with the ceiling
fixed at `15` — regardless of the `max_hours_per_week` argument passed to
`optimize_schedule`, which the score function never sees. -/
theorem C5_score_fixed_ceiling (stats : ScheduleOptimizer.OptStats) (d : ℚ) :
    ScheduleOptimizer.calculate_priority_score stats d =
      spec_priority_score 15 stats := by
  unfold ScheduleOptimizer.calculate_priority_score spec_priority_score
  cases hst : stats.star <;> simp [hst] <;> ring

/-- C8 (counterexample): constructing a `TimeSlot` with `start > end` does
not fail — the dataclass has no validation — and `duration_hours` silently
wraps modulo 24 hours: the reversed interval 10:00 → 09:00 is accepted and
reports 23 hours instead of raising an InvalidInterval condition. -/
theorem C8_counterexample :
    (TimeSlot.mk 600 540).start > (TimeSlot.mk 600 540).stop ∧
    (TimeSlot.mk 600 540).duration_hours = 23 := by
  constructor
  · norm_num
  · norm_num [TimeSlot.duration_hours]

/-- C8 (amended): `duration_hours` returns a non-negative number of hours
for every interval, including one with `start > end`; such an interval is
accepted by construction (no InvalidInterval condition exists in the code)
and its duration wraps modulo 24 hours. -/
theorem C8_duration_nonneg_no_failure :
    (∀ t : TimeSlot, 0 ≤ t.duration_hours) ∧
    (TimeSlot.mk 600 540).duration_hours = 23 := by
  constructor
  · exact duration_hours_nonneg
  · norm_num [TimeSlot.duration_hours]

/-- C10 (counterexample): with `max_shift_duration = 4`, a single 5-hour
session and one proctor available the full 5 hours, the overlap (5 h)
exceeds the bound and the candidate is rejected — but the session is then
dropped entirely (`if assigned_proctors:` fails), so the day's coverage
list is empty: no entry with zero proctors is emitted. -/
theorem C10_counterexample :
    ScheduleGenerator.default.generate_schedule_out
      [⟨"A", false, [("Monday", [⟨540, 840⟩])]⟩]
      [("Monday", [⟨540, 840⟩])] = .ok [("Monday", [])] ∧
    (TimeSlot.mk 540 840).duration_hours = 5 := by
  constructor
  · norm_num +decide [ScheduleGenerator.default,
      ScheduleGenerator.generate_schedule_out, ScheduleGenerator.generate_schedule,
      ScheduleGenerator.generate_days, ScheduleGenerator.generate_day_schedule,
      ScheduleGenerator.day_schedule_loop, pySorted, pyInsert,
      ScheduleGenerator.assign_proctors_to_session,
      ScheduleGenerator.candidate_loop, ScheduleGenerator.push_slot_candidates,
      assocLookup, TimeSlot.get_overlap, TimeSlot.overlaps_with,
      TimeSlot.duration_hours, ScheduleGenerator.is_valid_assignment,
      ScheduleGenerator.calculate_priority_score,
      ScheduleGenerator.initialize_proctor_hours, heappush, heappop, siftup,
      siftdownLoop_go, siftdownLoop_stop, siftupLoop_two, siftupLoop_one,
      siftupLoop_leaf, ScheduleGenerator.select_best_proctors_stop,
      ScheduleGenerator.select_best_proctors_go, ScheduleGenerator.candLt,
    ScheduleGenerator.Cand.assignment,
      Except.map]
  · norm_num [TimeSlot.duration_hours]

/-- C10 (amended): in the 5-hour-session scenario the overlap's duration is
5, the admissibility check rejects it against the 4-hour shift bound, and
the session produces no entry at all in the output (the day maps to an
empty list), rather than an entry with an empty proctor list. -/
theorem C10_long_session_dropped :
    (TimeSlot.mk 540 840).duration_hours = 5 ∧
    ScheduleGenerator.is_valid_assignment ScheduleGenerator.default
      (fun _ => 0) "A" 5 = false ∧
    ScheduleGenerator.default.generate_schedule_out
      [⟨"A", false, [("Monday", [⟨540, 840⟩])]⟩]
      [("Monday", [⟨540, 840⟩])] = .ok [("Monday", [])] := by
  refine ⟨by norm_num [TimeSlot.duration_hours], ?_, ?_⟩
  · norm_num [ScheduleGenerator.is_valid_assignment, ScheduleGenerator.default]
  · norm_num +decide [ScheduleGenerator.default,
      ScheduleGenerator.generate_schedule_out, ScheduleGenerator.generate_schedule,
      ScheduleGenerator.generate_days, ScheduleGenerator.generate_day_schedule,
      ScheduleGenerator.day_schedule_loop, pySorted, pyInsert,
      ScheduleGenerator.assign_proctors_to_session,
      ScheduleGenerator.candidate_loop, ScheduleGenerator.push_slot_candidates,
      assocLookup, TimeSlot.get_overlap, TimeSlot.overlaps_with,
      TimeSlot.duration_hours, ScheduleGenerator.is_valid_assignment,
      ScheduleGenerator.calculate_priority_score,
      ScheduleGenerator.initialize_proctor_hours, heappush, heappop, siftup,
      siftdownLoop_go, siftdownLoop_stop, siftupLoop_two, siftupLoop_one,
      siftupLoop_leaf, ScheduleGenerator.select_best_proctors_stop,
      ScheduleGenerator.select_best_proctors_go, ScheduleGenerator.candLt,
    ScheduleGenerator.Cand.assignment,
      Except.map]

/-- C2 (counterexample): the generator can assign the same proctor twice to
one session.  One proctor with a duplicated availability slot produces two
identical admissible candidates (equal tuples push without a comparison
error); the selection loop pops both, so the emitted coverage carries the
name "A" twice. -/
theorem C2_counterexample :
    ScheduleGenerator.default.generate_schedule_out
      [⟨"A", false, [("Monday", [⟨540, 780⟩, ⟨540, 780⟩])]⟩]
      [("Monday", [⟨540, 780⟩])] =
      .ok [("Monday", [⟨⟨540, 780⟩,
        [⟨"A", false, ⟨540, 780⟩⟩, ⟨"A", false, ⟨540, 780⟩⟩]⟩])] ∧
    ¬ (([⟨"A", false, ⟨540, 780⟩⟩, ⟨"A", false, ⟨540, 780⟩⟩] :
        List Assignment).map Assignment.Name).Nodup := by
  constructor
  · norm_num +decide [ScheduleGenerator.default,
      ScheduleGenerator.generate_schedule_out, ScheduleGenerator.generate_schedule,
      ScheduleGenerator.generate_days, ScheduleGenerator.generate_day_schedule,
      ScheduleGenerator.day_schedule_loop, pySorted, pyInsert,
      ScheduleGenerator.assign_proctors_to_session,
      ScheduleGenerator.candidate_loop, ScheduleGenerator.push_slot_candidates,
      assocLookup, TimeSlot.get_overlap, TimeSlot.overlaps_with,
      TimeSlot.duration_hours, ScheduleGenerator.is_valid_assignment,
      ScheduleGenerator.calculate_priority_score,
      ScheduleGenerator.initialize_proctor_hours, heappush, heappop, siftup,
      siftdownLoop_go, siftdownLoop_stop, siftupLoop_two, siftupLoop_one,
      siftupLoop_leaf, ScheduleGenerator.select_best_proctors_stop,
      ScheduleGenerator.select_best_proctors_go, ScheduleGenerator.candLt,
    ScheduleGenerator.Cand.assignment,
      Except.map]
  · decide

/-- C2 (amended): every coverage emitted by either phase carries at most 2
assignments.  (The no-repeated-name half of the original claim is false:
see the counterexample.) -/
theorem C2_coverage_at_most_two :
    (∀ (self : ScheduleGenerator) (ps : List Proctor)
        (lab_times : List (String × List TimeSlot)) (sched : Schedule)
        (day : String) (entries : List Entry) (e : Entry),
      self.generate_schedule_out ps lab_times = .ok sched →
      (day, entries) ∈ sched → e ∈ entries → e.proctors.length ≤ 2) ∧
    (∀ (schedule : Schedule) (m minS maxS : ℚ) (sched : Schedule)
        (day : String) (entries : List Entry) (e : Entry),
      ScheduleOptimizer.optimize_schedule_out schedule m minS maxS = .ok sched →
      (day, entries) ∈ sched → e ∈ entries → e.proctors.length ≤ 2) := by
  constructor
  · intro self ps lab_times sched day entries e hok hmem he
    unfold ScheduleGenerator.generate_schedule_out at hok
    cases hpair : ScheduleGenerator.generate_schedule self ps lab_times with
    | error e2 => rw [hpair] at hok; cases hok
    | ok pr =>
      rw [hpair] at hok
      have hsched : sched = pr.1 := by
        simpa [Except.map] using hok.symm
      subst hsched
      unfold ScheduleGenerator.generate_schedule at hpair
      refine ScheduleGenerator.generate_days_entries
        (fun e => e.proctors.length ≤ 2) ?_ _ _ _ hpair day entries hmem e he
      intro day' hours₀ h' s assigned hdur hass hne
      rcases ScheduleGenerator.assign_session_cases hass with ⟨h0, _⟩ |
          ⟨c₁, _, h1, _⟩ | ⟨c₁, c₂, _, _, h2, _⟩
      · simp at h0; simp [h0]
      · simp at h1; simp [h1]
      · simp at h2; simp [h2]
  · intro schedule m minS maxS sched day entries e hok hmem he
    unfold ScheduleOptimizer.optimize_schedule_out at hok
    cases hpair : ScheduleOptimizer.optimize_schedule schedule m minS maxS with
    | error e2 => rw [hpair] at hok; cases hok
    | ok pr =>
      rw [hpair] at hok
      have hsched : sched = pr.1 := by
        simpa [Except.map] using hok.symm
      subst hsched
      unfold ScheduleOptimizer.optimize_schedule at hpair
      refine ScheduleOptimizer.optimize_loop_entries
        (fun _ e => e.proctors.length ≤ 2) _ _ _ _ hpair ?_ ?_ day entries hmem e he
      · intro d entries' hmem' e' he'
        rcases List.mem_map.mp hmem' with ⟨x, _, heq⟩
        have : entries' = [] := (congrArg Prod.snd heq).symm
        subst this
        cases he'
      · intro day' session origs stats₀ best _ hfb _
        exact (ScheduleOptimizer.find_best_proctors_spec hfb).1

/-- C2 (witness): the bound instantiated on two concrete runs, one per
phase. -/
theorem C2_witness :
    (([⟨"A", false, ⟨540, 720⟩⟩] : List Assignment).length ≤ 2) ∧
    (([⟨"B", false, ⟨600, 750⟩⟩] : List Assignment).length ≤ 2) := by
  constructor
  · exact C2_coverage_at_most_two.1 ScheduleGenerator.default
      [⟨"A", false, [("Monday", [⟨540, 720⟩])]⟩] [("Monday", [⟨540, 720⟩])]
      [("Monday", [⟨⟨540, 720⟩, [⟨"A", false, ⟨540, 720⟩⟩]⟩])] "Monday"
      [⟨⟨540, 720⟩, [⟨"A", false, ⟨540, 720⟩⟩]⟩]
      ⟨⟨540, 720⟩, [⟨"A", false, ⟨540, 720⟩⟩]⟩
      (by norm_num +decide [ScheduleGenerator.default,
        ScheduleGenerator.generate_schedule_out,
        ScheduleGenerator.generate_schedule, ScheduleGenerator.generate_days,
        ScheduleGenerator.generate_day_schedule,
        ScheduleGenerator.day_schedule_loop, pySorted, pyInsert,
        ScheduleGenerator.assign_proctors_to_session,
        ScheduleGenerator.candidate_loop, ScheduleGenerator.push_slot_candidates,
        assocLookup, TimeSlot.get_overlap, TimeSlot.overlaps_with,
        TimeSlot.duration_hours, ScheduleGenerator.is_valid_assignment,
        ScheduleGenerator.calculate_priority_score,
        ScheduleGenerator.initialize_proctor_hours, heappush, heappop, siftup,
        siftdownLoop_go, siftdownLoop_stop, siftupLoop_two, siftupLoop_one,
        siftupLoop_leaf, ScheduleGenerator.select_best_proctors_stop,
        ScheduleGenerator.select_best_proctors_go, ScheduleGenerator.candLt,
    ScheduleGenerator.Cand.assignment,
        Except.map])
      (by simp) (by simp)
  · exact C2_coverage_at_most_two.2
      [("Monday", [⟨⟨600, 750⟩, [⟨"B", false, ⟨600, 750⟩⟩]⟩])] 15 (5/2) 4
      [("Monday", [⟨⟨600, 750⟩, [⟨"B", false, ⟨600, 750⟩⟩]⟩])] "Monday"
      [⟨⟨600, 750⟩, [⟨"B", false, ⟨600, 750⟩⟩]⟩]
      ⟨⟨600, 750⟩, [⟨"B", false, ⟨600, 750⟩⟩]⟩
      (by norm_num +decide [ScheduleOptimizer.optimize_schedule_out,
        ScheduleOptimizer.optimize_schedule, ScheduleOptimizer.optimize_loop,
        ScheduleOptimizer.sort_sessions, ScheduleOptimizer.sessionKeyLt,
        ScheduleOptimizer.initialize_proctor_stats, ScheduleOptimizer.statsAdd,
        ScheduleOptimizer.find_best_proctors, ScheduleOptimizer.build_queue,
        ScheduleOptimizer.calculate_priority_score,
        ScheduleOptimizer.update_proctor_hours, ScheduleOptimizer.appendEntry,
        ScheduleOptimizer.oselect_stop, ScheduleOptimizer.oselect_go,
        ScheduleOptimizer.ocandLt, pySorted, pyInsert, TimeSlot.duration_hours,
        heappush, heappop, siftup, siftdownLoop_go, siftdownLoop_stop,
        siftupLoop_two, siftupLoop_one, siftupLoop_leaf, Except.map])
      (by simp) (by simp)

/-- C9: a session strictly shorter than the minimum shift duration never
receives a coverage entry, in either phase: the generator skips it before
matching, and the optimizer's duration re-check returns no proctors for it
so no entry is appended. -/
theorem C9_short_sessions_never_covered :
    (∀ (self : ScheduleGenerator) (ps : List Proctor)
        (lab_times : List (String × List TimeSlot)) (sched : Schedule)
        (day : String) (entries : List Entry) (e : Entry),
      self.generate_schedule_out ps lab_times = .ok sched →
      (day, entries) ∈ sched → e ∈ entries →
      ¬ e.lab_time.duration_hours < self.min_shift_duration) ∧
    (∀ (schedule : Schedule) (m minS maxS : ℚ) (sched : Schedule)
        (day : String) (entries : List Entry) (e : Entry),
      ScheduleOptimizer.optimize_schedule_out schedule m minS maxS = .ok sched →
      (day, entries) ∈ sched → e ∈ entries →
      ¬ e.lab_time.duration_hours < minS) := by
  constructor
  · intro self ps lab_times sched day entries e hok hmem he
    unfold ScheduleGenerator.generate_schedule_out at hok
    cases hpair : ScheduleGenerator.generate_schedule self ps lab_times with
    | error e2 => rw [hpair] at hok; cases hok
    | ok pr =>
      rw [hpair] at hok
      have hsched : sched = pr.1 := by
        simpa [Except.map] using hok.symm
      subst hsched
      unfold ScheduleGenerator.generate_schedule at hpair
      refine ScheduleGenerator.generate_days_entries
        (fun e => ¬ e.lab_time.duration_hours < self.min_shift_duration) ?_
        _ _ _ hpair day entries hmem e he
      intro day' hours₀ h' s assigned hdur hass hne
      exact hdur
  · intro schedule m minS maxS sched day entries e hok hmem he
    unfold ScheduleOptimizer.optimize_schedule_out at hok
    cases hpair : ScheduleOptimizer.optimize_schedule schedule m minS maxS with
    | error e2 => rw [hpair] at hok; cases hok
    | ok pr =>
      rw [hpair] at hok
      have hsched : sched = pr.1 := by
        simpa [Except.map] using hok.symm
      subst hsched
      unfold ScheduleOptimizer.optimize_schedule at hpair
      refine ScheduleOptimizer.optimize_loop_entries
        (fun _ e => ¬ e.lab_time.duration_hours < minS) _ _ _ _ hpair ?_ ?_
        day entries hmem e he
      · intro d entries' hmem' e' he'
        rcases List.mem_map.mp hmem' with ⟨x, _, heq⟩
        have : entries' = [] := (congrArg Prod.snd heq).symm
        subst this
        cases he'
      · intro day' session origs stats₀ best _ hfb hne
        have h := (ScheduleOptimizer.find_best_proctors_spec hfb).2.2 hne
        exact fun hc => h (Or.inl hc)

/-- C9 (witness): the two parts instantiated on the runs of `C2_witness`'s
shape: the emitted sessions are 3 h and 2.5 h long, at or above the
respective minimum shift durations. -/
theorem C9_witness :
    (¬ (TimeSlot.mk 540 720).duration_hours <
        ScheduleGenerator.default.min_shift_duration) ∧
    (¬ (TimeSlot.mk 600 750).duration_hours < (5/2 : ℚ)) := by
  constructor
  · exact C9_short_sessions_never_covered.1 ScheduleGenerator.default
      [⟨"A", false, [("Monday", [⟨540, 720⟩])]⟩] [("Monday", [⟨540, 720⟩])]
      [("Monday", [⟨⟨540, 720⟩, [⟨"A", false, ⟨540, 720⟩⟩]⟩])] "Monday"
      [⟨⟨540, 720⟩, [⟨"A", false, ⟨540, 720⟩⟩]⟩]
      ⟨⟨540, 720⟩, [⟨"A", false, ⟨540, 720⟩⟩]⟩
      (by norm_num +decide [ScheduleGenerator.default,
        ScheduleGenerator.generate_schedule_out,
        ScheduleGenerator.generate_schedule, ScheduleGenerator.generate_days,
        ScheduleGenerator.generate_day_schedule,
        ScheduleGenerator.day_schedule_loop, pySorted, pyInsert,
        ScheduleGenerator.assign_proctors_to_session,
        ScheduleGenerator.candidate_loop, ScheduleGenerator.push_slot_candidates,
        assocLookup, TimeSlot.get_overlap, TimeSlot.overlaps_with,
        TimeSlot.duration_hours, ScheduleGenerator.is_valid_assignment,
        ScheduleGenerator.calculate_priority_score,
        ScheduleGenerator.initialize_proctor_hours, heappush, heappop, siftup,
        siftdownLoop_go, siftdownLoop_stop, siftupLoop_two, siftupLoop_one,
        siftupLoop_leaf, ScheduleGenerator.select_best_proctors_stop,
        ScheduleGenerator.select_best_proctors_go, ScheduleGenerator.candLt,
    ScheduleGenerator.Cand.assignment,
        Except.map])
      (by simp) (by simp)
  · exact C9_short_sessions_never_covered.2
      [("Monday", [⟨⟨600, 750⟩, [⟨"B", false, ⟨600, 750⟩⟩]⟩])] 15 (5/2) 4
      [("Monday", [⟨⟨600, 750⟩, [⟨"B", false, ⟨600, 750⟩⟩]⟩])] "Monday"
      [⟨⟨600, 750⟩, [⟨"B", false, ⟨600, 750⟩⟩]⟩]
      ⟨⟨600, 750⟩, [⟨"B", false, ⟨600, 750⟩⟩]⟩
      (by norm_num +decide [ScheduleOptimizer.optimize_schedule_out,
        ScheduleOptimizer.optimize_schedule, ScheduleOptimizer.optimize_loop,
        ScheduleOptimizer.sort_sessions, ScheduleOptimizer.sessionKeyLt,
        ScheduleOptimizer.initialize_proctor_stats, ScheduleOptimizer.statsAdd,
        ScheduleOptimizer.find_best_proctors, ScheduleOptimizer.build_queue,
        ScheduleOptimizer.calculate_priority_score,
        ScheduleOptimizer.update_proctor_hours, ScheduleOptimizer.appendEntry,
        ScheduleOptimizer.oselect_stop, ScheduleOptimizer.oselect_go,
        ScheduleOptimizer.ocandLt, pySorted, pyInsert, TimeSlot.duration_hours,
        heappush, heappop, siftup, siftdownLoop_go, siftdownLoop_stop,
        siftupLoop_two, siftupLoop_one, siftupLoop_leaf, Except.map])
      (by simp) (by simp)

/-- C7: every assignment the optimizer emits for a session already appears
in that session's coverage in the input schedule (same day, same
`lab_time`): the candidate pool of `_find_best_proctors` is the session's
own original proctor list, so the optimizer never introduces a proctor the
generator did not assign to that session. -/
theorem C7_optimizer_no_new_proctors (schedule : Schedule) (m minS maxS : ℚ)
    (sched : Schedule) (day : String) (entries : List Entry) (e : Entry)
    (a : Assignment) :
    ScheduleOptimizer.optimize_schedule_out schedule m minS maxS = .ok sched →
    (day, entries) ∈ sched → e ∈ entries → a ∈ e.proctors →
    ∃ entries₀ e₀, (day, entries₀) ∈ schedule ∧ e₀ ∈ entries₀ ∧
      e₀.lab_time = e.lab_time ∧ a ∈ e₀.proctors := by
  intro hok hmem he ha
  unfold ScheduleOptimizer.optimize_schedule_out at hok
  cases hpair : ScheduleOptimizer.optimize_schedule schedule m minS maxS with
  | error e2 => rw [hpair] at hok; cases hok
  | ok pr =>
    rw [hpair] at hok
    have hsched : sched = pr.1 := by
      simpa [Except.map] using hok.symm
    subst hsched
    unfold ScheduleOptimizer.optimize_schedule at hpair
    refine ScheduleOptimizer.optimize_loop_entries
      (fun d e => ∀ a ∈ e.proctors, ∃ entries₀ e₀, (d, entries₀) ∈ schedule ∧
        e₀ ∈ entries₀ ∧ e₀.lab_time = e.lab_time ∧ a ∈ e₀.proctors)
      _ _ _ _ hpair ?_ ?_ day entries hmem e he a ha
    · intro d entries' hmem' e' he'
      rcases List.mem_map.mp hmem' with ⟨x, _, heq⟩
      have : entries' = [] := (congrArg Prod.snd heq).symm
      subst this
      cases he'
    · intro day' session origs stats₀ best hitem hfb hne a' ha'
      obtain ⟨entries₀, hsch, hsess, horig⟩ :=
        ScheduleOptimizer.mem_sort_sessions hitem
      have hsub := (ScheduleOptimizer.find_best_proctors_spec hfb).2.1
      refine ⟨entries₀, session, hsch, hsess, rfl, ?_⟩
      have := hsub a' (by simpa using ha')
      rw [horig] at this
      exact this

/-- C7 (witness): the containment instantiated on a concrete one-session
optimizer run. -/
theorem C7_witness :
    ∃ entries₀ e₀,
      ("Monday", entries₀) ∈
        ([("Monday", [⟨⟨600, 750⟩, [⟨"B", false, ⟨600, 750⟩⟩]⟩])] : Schedule) ∧
      e₀ ∈ entries₀ ∧
      e₀.lab_time = (Entry.mk ⟨600, 750⟩ [⟨"B", false, ⟨600, 750⟩⟩]).lab_time ∧
      (⟨"B", false, ⟨600, 750⟩⟩ : Assignment) ∈ e₀.proctors := by
  refine C7_optimizer_no_new_proctors
    [("Monday", [⟨⟨600, 750⟩, [⟨"B", false, ⟨600, 750⟩⟩]⟩])] 15 (5/2) 4
    [("Monday", [⟨⟨600, 750⟩, [⟨"B", false, ⟨600, 750⟩⟩]⟩])] "Monday"
    [⟨⟨600, 750⟩, [⟨"B", false, ⟨600, 750⟩⟩]⟩]
    ⟨⟨600, 750⟩, [⟨"B", false, ⟨600, 750⟩⟩]⟩
    ⟨"B", false, ⟨600, 750⟩⟩
    ?_ (by simp) (by simp) (by simp)
  norm_num +decide [ScheduleOptimizer.optimize_schedule_out,
    ScheduleOptimizer.optimize_schedule, ScheduleOptimizer.optimize_loop,
    ScheduleOptimizer.sort_sessions, ScheduleOptimizer.sessionKeyLt,
    ScheduleOptimizer.initialize_proctor_stats, ScheduleOptimizer.statsAdd,
    ScheduleOptimizer.find_best_proctors, ScheduleOptimizer.build_queue,
    ScheduleOptimizer.calculate_priority_score,
    ScheduleOptimizer.update_proctor_hours, ScheduleOptimizer.appendEntry,
    ScheduleOptimizer.oselect_stop, ScheduleOptimizer.oselect_go,
    ScheduleOptimizer.ocandLt, pySorted, pyInsert, TimeSlot.duration_hours,
    heappush, heappop, siftup, siftdownLoop_go, siftdownLoop_stop,
    siftupLoop_two, siftupLoop_one, siftupLoop_leaf, Except.map]

/-- C6 (counterexample): the optimizer increments an accepted proctor's
cumulative hours by the duration of the recorded `assigned_time`, not by
the session duration: for a 3-hour session whose stored assignment covers
only 2.5 hours, the final stats show 2.5, where the claim demands 3. -/
theorem C6_counterexample :
    (ScheduleOptimizer.optimize_schedule
        [("Monday", [⟨⟨540, 720⟩, [⟨"A", false, ⟨540, 690⟩⟩]⟩])]
        15 (5/2) 4).map (fun r => r.2 "A") =
      .ok (some ⟨5/2, false, 1⟩) ∧
    (TimeSlot.mk 540 720).duration_hours = 3 ∧ ((5/2 : ℚ) ≠ 3) := by
  refine ⟨?_, by norm_num [TimeSlot.duration_hours], by norm_num⟩
  norm_num +decide [ScheduleOptimizer.optimize_schedule,
    ScheduleOptimizer.optimize_loop, ScheduleOptimizer.sort_sessions,
    ScheduleOptimizer.sessionKeyLt, ScheduleOptimizer.initialize_proctor_stats,
    ScheduleOptimizer.statsAdd, ScheduleOptimizer.find_best_proctors,
    ScheduleOptimizer.build_queue, ScheduleOptimizer.calculate_priority_score,
    ScheduleOptimizer.update_proctor_hours, ScheduleOptimizer.appendEntry,
    ScheduleOptimizer.oselect_stop, ScheduleOptimizer.oselect_go,
    ScheduleOptimizer.ocandLt, pySorted, pyInsert, TimeSlot.duration_hours,
    heappush, heappop, siftup, siftdownLoop_go, siftdownLoop_stop,
    siftupLoop_two, siftupLoop_one, siftupLoop_leaf, Except.map]

/-- C6 (amended): `_update_proctor_hours` increments each accepted
proctor's stats entry by the duration of that assignment's recorded
`assignedTime` (summed over the accepted list), not by the session
duration. -/
theorem C6_update_by_assigned_time :
    ∀ (ps : List Assignment) (stats stats' : String → Option ScheduleOptimizer.OptStats)
      (name : String) (st : ScheduleOptimizer.OptStats),
      ScheduleOptimizer.update_proctor_hours ps stats = .ok stats' →
      stats name = some st →
      stats' name = some ⟨st.hours + assigned_overlap_sum ps name, st.star,
        st.availability⟩ := by
  intro ps
  induction ps with
  | nil =>
    intro stats stats' name st hok hst
    cases hok
    rw [hst]
    simp [assigned_overlap_sum]
  | cons a rest ih =>
    intro stats stats' name st hok hst
    unfold ScheduleOptimizer.update_proctor_hours at hok
    cases ha : stats a.Name with
    | none => rw [ha] at hok; cases hok
    | some st0 =>
      rw [ha] at hok
      dsimp only at hok
      by_cases hn : name = a.Name
      · have hst0 : st0 = st := by
          rw [hn] at hst; rw [hst] at ha; exact (Option.some.injEq _ _ ▸ ha).symm
        subst hst0
        have hmid : (fun n => if n = a.Name then
            some (ScheduleOptimizer.OptStats.mk
              (st0.hours + a.assigned_time.duration_hours) st0.star
              st0.availability)
          else stats n) name = some ⟨st0.hours + a.assigned_time.duration_hours,
            st0.star, st0.availability⟩ := by
          simp [hn]
        have := ih _ _ name _ hok hmid
        rw [this]
        simp only [assigned_overlap_sum, List.map_cons, List.sum_cons]
        rw [if_pos hn.symm]
        norm_num [assigned_overlap_sum]
        ring
      · have hmid : (fun n => if n = a.Name then
            some (ScheduleOptimizer.OptStats.mk
              (st0.hours + a.assigned_time.duration_hours) st0.star
              st0.availability)
          else stats n) name = some st := by
          simp [hn, hst]
        have := ih _ _ name _ hok hmid
        rw [this]
        simp only [assigned_overlap_sum, List.map_cons, List.sum_cons]
        rw [if_neg (fun h => hn h.symm)]
        norm_num [assigned_overlap_sum]

/-- C6 (witness): the characterisation instantiated on one update of one
assignment whose recorded time is 2.5 hours. -/
theorem C6_witness :
    (ScheduleOptimizer.update_proctor_hours [⟨"A", false, ⟨540, 690⟩⟩]
        (fun n => if n = "A" then some ⟨0, false, 1⟩ else none)).map
        (fun f => f "A") =
      .ok (some ⟨0 + assigned_overlap_sum [⟨"A", false, ⟨540, 690⟩⟩] "A",
        false, 1⟩) := by
  obtain ⟨f, hf⟩ : ∃ f, ScheduleOptimizer.update_proctor_hours
      [⟨"A", false, ⟨540, 690⟩⟩]
      (fun n => if n = "A" then some ⟨0, false, 1⟩ else none) = .ok f :=
    ⟨_, rfl⟩
  have h := C6_update_by_assigned_time [⟨"A", false, ⟨540, 690⟩⟩] _ f "A"
    ⟨0, false, 1⟩ hf (by simp)
  simp [hf, Except.map, h]

/-- C1 (counterexample): a proctor with duplicated availability slots is
selected twice per session with a single push-time admissibility check per
candidate, so the cross-run total of assigned-overlap durations reaches 16
hours against the default 15-hour weekly ceiling. -/
theorem C1_counterexample :
    (ScheduleGenerator.default.generate_schedule_out
        [⟨"A", false, [("Monday", [⟨540, 780⟩, ⟨540, 780⟩]),
                       ("Tuesday", [⟨540, 780⟩, ⟨540, 780⟩])]⟩]
        [("Monday", [⟨540, 780⟩]), ("Tuesday", [⟨540, 780⟩])]).map
        (fun s => schedule_overlap_sum s "A") = .ok 16 ∧
    ScheduleGenerator.default.max_weekly_hours = 15 ∧ ¬ ((16 : ℚ) ≤ 15) := by
  refine ⟨?_, by norm_num [ScheduleGenerator.default], by norm_num⟩
  norm_num +decide [ScheduleGenerator.default,
    ScheduleGenerator.generate_schedule_out, ScheduleGenerator.generate_schedule,
    ScheduleGenerator.generate_days, ScheduleGenerator.generate_day_schedule,
    ScheduleGenerator.day_schedule_loop, pySorted, pyInsert,
    ScheduleGenerator.assign_proctors_to_session, ScheduleGenerator.candidate_loop,
    ScheduleGenerator.push_slot_candidates, assocLookup, TimeSlot.get_overlap,
    TimeSlot.overlaps_with, TimeSlot.duration_hours,
    ScheduleGenerator.is_valid_assignment,
    ScheduleGenerator.calculate_priority_score,
    ScheduleGenerator.initialize_proctor_hours, heappush, heappop, siftup,
    siftdownLoop_go, siftdownLoop_stop, siftupLoop_two, siftupLoop_one,
    siftupLoop_leaf, ScheduleGenerator.select_best_proctors_stop,
    ScheduleGenerator.select_best_proctors_go, ScheduleGenerator.candLt,
    ScheduleGenerator.Cand.assignment,
    Except.map, schedule_overlap_sum, day_overlap_sum, assigned_overlap_sum]

/-- C1 (amended): every candidate is admitted only while
`hours + overlap ≤ max_weekly_hours` held at heap-insertion time, but one
proctor can be accepted twice in a single session, so a proctor's cross-run
total of assigned-overlap durations can exceed `max_weekly_hours`; it never
exceeds `max_weekly_hours + max_shift_duration`. -/
theorem C1_hours_bounded (self : ScheduleGenerator) (ps : List Proctor)
    (lab_times : List (String × List TimeSlot)) (sched : Schedule)
    (name : String) :
    0 ≤ self.max_weekly_hours → 0 ≤ self.max_shift_duration →
    self.generate_schedule_out ps lab_times = .ok sched →
    schedule_overlap_sum sched name ≤
      self.max_weekly_hours + self.max_shift_duration := by
  intro hw hs hok
  unfold ScheduleGenerator.generate_schedule_out at hok
  cases hpair : ScheduleGenerator.generate_schedule self ps lab_times with
  | error e2 => rw [hpair] at hok; cases hok
  | ok pr =>
    rw [hpair] at hok
    have hsched : sched = pr.1 := by
      simpa [Except.map] using hok.symm
    subst hsched
    unfold ScheduleGenerator.generate_schedule at hpair
    have hsum := ScheduleGenerator.generate_days_sum _ _ _ hpair name
    have hbound := ScheduleGenerator.generate_days_bound hs _ _ _ hpair
      (fun q => by
        simp [ScheduleGenerator.initialize_proctor_hours]
        linarith) name
    simp [ScheduleGenerator.initialize_proctor_hours] at hsum
    linarith

/-- C1 (witness): the bound instantiated on a concrete run, whose total of
3 assigned hours stays below `15 + 4`. -/
theorem C1_witness :
    schedule_overlap_sum
      [("Monday", [⟨⟨540, 720⟩, [⟨"A", false, ⟨540, 720⟩⟩]⟩])] "A" ≤
      ScheduleGenerator.default.max_weekly_hours +
        ScheduleGenerator.default.max_shift_duration := by
  refine C1_hours_bounded ScheduleGenerator.default
    [⟨"A", false, [("Monday", [⟨540, 720⟩])]⟩] [("Monday", [⟨540, 720⟩])]
    [("Monday", [⟨⟨540, 720⟩, [⟨"A", false, ⟨540, 720⟩⟩]⟩])] "A"
    (by norm_num [ScheduleGenerator.default])
    (by norm_num [ScheduleGenerator.default]) ?_
  norm_num +decide [ScheduleGenerator.default,
    ScheduleGenerator.generate_schedule_out, ScheduleGenerator.generate_schedule,
    ScheduleGenerator.generate_days, ScheduleGenerator.generate_day_schedule,
    ScheduleGenerator.day_schedule_loop, pySorted, pyInsert,
    ScheduleGenerator.assign_proctors_to_session, ScheduleGenerator.candidate_loop,
    ScheduleGenerator.push_slot_candidates, assocLookup, TimeSlot.get_overlap,
    TimeSlot.overlaps_with, TimeSlot.duration_hours,
    ScheduleGenerator.is_valid_assignment,
    ScheduleGenerator.calculate_priority_score,
    ScheduleGenerator.initialize_proctor_hours, heappush, heappop, siftup,
    siftdownLoop_go, siftdownLoop_stop, siftupLoop_two, siftupLoop_one,
    siftupLoop_leaf, ScheduleGenerator.select_best_proctors_stop,
    ScheduleGenerator.select_best_proctors_go, ScheduleGenerator.candLt,
    ScheduleGenerator.Cand.assignment,
    Except.map]

end WorkScheduler
